import Mathlib

/-!
Verification development for the frisbeer-backend rating/ranking engine.

The Lean definitions below are a shallow embedding of the Python source:

* `djangofiles/frisbeer/utils.py` — Elo arithmetic and team balancing
  (`calculate_team_elo`, `calculate_elo_change`, `create_equal_teams`);
* `djangofiles/frisbeer/models.py` — the data model (`Player`, `Team`,
  `Game`, `Season`, `SeasonRules`, `GameRules`, `Rank`), rule resolution,
  `Game.can_score`, `Team.find_or_create`, `Season.current`,
  `SeasonRules.algorithm`;
* `djangofiles/frisbeer/signals.py` — the recompute pipeline
  (`update_elo`, `update_score`, `calculate_ranks`, `update_team_score`,
  `update_statistics`).

Modelling conventions:

* Django model rows become Lean structures; querysets become `List`s in the
  stored order; foreign keys are ids looked up in the corresponding list.
* Python floats are modelled by `ℝ`; integer database columns by `ℤ`/`ℕ`;
  `int(x)` (truncation toward zero) is `pytrunc`.
* Python exceptions are modelled by `Except`; exceptions raised midway
  through a pass carry the database state as mutated so far, so that the
  statement "no write happened before the failure" is expressible.
* Each pass of `signals.py` is written as a core function that receives
  exactly the columns the Python code reads, followed by a write-back of
  the columns the pass overwrites; the core bodies follow the Python
  statement by statement.
-/

namespace Frisbeer

/-- Truncation toward zero, the behaviour of Python `int()` on a float. -/
noncomputable def pytrunc (x : ℝ) : ℤ :=
  if 0 ≤ x then ⌊x⌋ else -⌊-x⌋

/-- Modelled from the spec: `settings.ELO_K` lives in the Django settings
module, which is not part of the provided sources.  The spec end-to-end
scenario (section 8) uses `K=32`. -/
def ELO_K : ℝ := 32

/-- Embedding of `utils.calculate_team_elo`: `int(sum(elos) / len(elos))`.
An empty member list raises `ZeroDivisionError` in Python. -/
noncomputable def calculate_team_elo (elos : List ℝ) : Except String ℤ :=
  if elos.length = 0 then .error "ZeroDivisionError"
  else .ok (pytrunc (elos.sum / (elos.length : ℝ)))

/-- Embedding of `utils.calculate_elo_change`. -/
noncomputable def calculate_elo_change (my_elo opponent_elo : ℝ) (win : Bool) : ℝ :=
  let actual_score : ℝ := if win then 1 else 0
  let Ea : ℝ := 1 / (1 + (10 : ℝ) ^ ((opponent_elo - my_elo) / 400))
  ELO_K * (actual_score - Ea)

/-- Enumeration of the size-`n` combinations of a list, in the order
produced by Python `itertools.combinations`. -/
def combos : Nat → List α → List (List α)
  | 0, _ => [[]]
  | _ + 1, [] => []
  | n + 1, x :: xs => (combos n xs).map (x :: ·) ++ combos (n + 1) xs

/-- Insert into a sorted list, before any element with an equal key.  In
`sortK` the inserted element precedes the already-sorted ones in the
original list, so this is the insertion step of a stable sort, and Python
`sorted` is stable. -/
def insertK (key : α → ℤ) (x : α) : List α → List α
  | [] => [x]
  | y :: ys => if key x ≤ key y then x :: y :: ys else y :: insertK key x ys

/-- Stable sort by an integer key.  Any two stable sorts agree, so this
models Python `sorted(·, key=...)`. -/
def sortK (key : α → ℤ) : List α → List α
  | [] => []
  | x :: xs => insertK key x (sortK key xs)

/-! ## Data model (`models.py`) -/

abbrev PlayerId := Nat
abbrev SeasonId := Nat

/-- Embedding of `models.Rank` (identity fields only; `image_url` is
presentational and omitted).  The rank catalog is the stored list of rank
rows; a stored player rank is an index into that list. -/
structure Rank where
  name : String
  numerical_value : ℤ
deriving DecidableEq, Repr

/-- Embedding of a `models.Player` row.  `elo` and `season_best` hold
Python floats after `update_elo` runs, hence `ℝ`; `score` also receives
the float `player.elo` under the `elo` scoring algorithm. -/
structure Player where
  id : PlayerId
  name : String
  elo : ℝ
  score : ℝ
  season_best : ℝ
  rank : Option Nat

/-- Embedding of `models.GameRules`. -/
structure GameRules where
  min_players : Nat
  max_players : Nat
  min_rounds : Nat
  max_rounds : Nat
deriving DecidableEq, Repr

/-- Embedding of `models.SeasonRules`.  `score_algorithm` and
`rank_statistic` are stored strings (Django `TextChoices` values). -/
structure SeasonRules where
  name : String
  elo_decay : Bool
  score_algorithm : String
  rank_statistic : String
  rank_min_value : ℤ
deriving DecidableEq, Repr

/-- Embedding of a `models.Season` row.  Dates are day ordinals. -/
structure Season where
  id : SeasonId
  start_date : ℤ
  rules : Option SeasonRules
  game_rules : Option GameRules
deriving DecidableEq, Repr

/-- Embedding of a `models.GamePlayerRelation` row: `team` is 0
(unassigned), 1 or 2. -/
structure GamePlayerRelation where
  player : PlayerId
  team : Nat
deriving DecidableEq, Repr

/-- Embedding of a `models.Game` row together with its
`gameplayerrelation_set`.  `state` is 0..3 with 3 = `APPROVED`;
`_rules` is the nullable per-game ruleset override. -/
structure Game where
  season : Option SeasonId
  _rules : Option GameRules
  date : ℤ
  team1_score : Nat
  team2_score : Nat
  state : Nat
  players : List GamePlayerRelation
deriving DecidableEq, Repr

/-- Embedding of a `models.TeamPlayerRelation` row (membership with the
`backup` flag). -/
structure TeamPlayerRelation where
  player : PlayerId
  backup : Bool
deriving DecidableEq, Repr

/-- Embedding of a `models.Team` row together with its membership
relation rows. -/
structure Team where
  name : String
  members : List TeamPlayerRelation
  season : Option SeasonId
  elo : ℝ
  season_best : ℝ
  virtual : Bool

/-- The stored state read and written by the engine: every table it
touches, plus the current day used by `date.today()`.  `gameTeams` models
the `GameTeamRelation` table as a map from a game position in `games` to
the pair of team positions in `teams` resolved for sides 1 and 2. -/
structure DB where
  today : ℤ
  players : List Player
  games : List Game
  seasons : List Season
  ranks : List Rank
  teams : List Team
  gameTeams : Nat → Option (Nat × Nat)

/-- Foreign-key lookup of a season row by id. -/
def findSeason (seasons : List Season) (i : SeasonId) : Option Season :=
  seasons.find? (fun s => s.id = i)

/-- Fold step of `Season.current()`: keep the season with the strictly
later start date, the earlier stored row winning ties. -/
def chooseLater (best : Option Season) (s : Season) : Option Season :=
  match best with
  | none => some s
  | some b => if b.start_date < s.start_date then some s else best

/-- Embedding of `Season.current()`: the season with the latest
`start_date` not after today; `none` when no such season exists.  The
first stored row wins among equal start dates. -/
def currentSeason (today : ℤ) (seasons : List Season) : Option Season :=
  (seasons.filter (fun s => s.start_date ≤ today)).foldl chooseLater none

/-- Embedding of the `Game.rules` property: `self._rules or
self.season.game_rules`.  When neither resolves, Python raises
(`AttributeError` on `None`), which the callers observe. -/
def gameRulesOf (seasons : List Season) (g : Game) : Except String GameRules :=
  match g._rules with
  | some r => .ok r
  | none =>
    match g.season.bind (fun i => (findSeason seasons i).bind (fun s => s.game_rules)) with
    | some r => .ok r
    | none => .error "AttributeError: rules missing"

/-- Embedding of `Game.can_score`.  The Python `and` chain checks the
state first, so an unresolvable ruleset only raises when the state check
passes. -/
def canScore (seasons : List Season) (g : Game) : Except String Bool :=
  if g.state < 3 then .ok false
  else
    match gameRulesOf seasons g with
    | .error e => .error e
    | .ok rules =>
      let players_count := g.players.length
      let players_per_team := (players_count + 1) / 2
      let rounds_played := g.team1_score + g.team2_score
      .ok (decide (rules.min_rounds ≤ rounds_played) &&
           decide (rounds_played ≤ rules.max_rounds) &&
           decide (rules.min_players ≤ players_count) &&
           decide (players_count ≤ rules.max_players) &&
           decide ((g.players.filter (fun r => r.team = 0)).length = 0) &&
           decide ((g.players.filter (fun r => r.team = 1)).length ≤ players_per_team) &&
           decide ((g.players.filter (fun r => r.team = 2)).length ≤ players_per_team))

/-! ## Team balancing (`utils.create_equal_teams`) -/

/-- Embedding of `utils.create_equal_teams`.  The input list is the
iteration order of the Python player set.  Each size-`n` combination is
paired with the complement (`players - set(team1)`, membership by player
identity), tagged with the absolute gap of truncated mean ratings, and
the first minimum under a stable sort by gap is returned.  Indexing `[0]`
into an empty list raises in Python. -/
noncomputable def create_equal_teams (players : List Player) :
    Except String (ℤ × List Player × List Player) := do
  let players_in_team := players.length / 2
  let possibilities := combos players_in_team players
  let elo_list ← possibilities.mapM (fun team1 => do
    let team2 := players.filter (fun p => ¬ team1.any (fun q => q.id = p.id))
    let elo1 ← calculate_team_elo (team1.map (fun p => p.elo))
    let elo2 ← calculate_team_elo (team2.map (fun p => p.elo))
    pure (|elo1 - elo2|, team1, team2))
  match sortK (fun x => x.1) elo_list with
  | [] => .error "IndexError"
  | ideal :: _ => .ok ideal

/-! ## Elo recomputation (`signals.update_elo`)

The pass reads only the game/season tables and player ids (it resets all
ratings before replaying), and writes `elo` and `season_best`.  It is
expressed as a core on `(id, elo, season_best)` triples followed by a
positional write-back, mirroring the per-row `UPDATE`s. -/

/-- The player columns the Elo pass works on. -/
structure CorePlayer where
  id : PlayerId
  elo : ℝ
  season_best : ℝ

/-- Projection of a player row to the columns the Elo and score passes
read. -/
def toCore (p : Player) : CorePlayer := ⟨p.id, p.elo, p.season_best⟩

/-- Embedding of the nested `_elo_decay` of `update_elo`: only players are
touched, for every row, with no condition. -/
noncomputable def eloDecay (ps : List CorePlayer) : List CorePlayer :=
  ps.map (fun p => { p with elo := (p.elo - 1500) / 2 + 1500, season_best := 0 })

/-- The player ids assigned to a side of a game. -/
def sidePlayers (g : Game) (side : Nat) : List PlayerId :=
  (g.players.filter (fun r => r.team == side)).map (fun r => r.player)

/-- Embedding of the body of the `update_elo` game loop after the decay
bookkeeping: compute each side's truncated mean pregame rating, one signed
change, and apply it (`+` to side 1, `-` to side 2), updating
`season_best` when the new rating exceeds it. -/
noncomputable def eloGameStep (g : Game) (ps : List CorePlayer) :
    Except String (List CorePlayer) := do
  let team1 := ps.filter (fun p => (sidePlayers g 1).any (fun pid => pid == p.id))
  let team2 := ps.filter (fun p => (sidePlayers g 2).any (fun pid => pid == p.id))
  let team2_pregame ← calculate_team_elo (team2.map (fun p => p.elo))
  let team1_pregame ← calculate_team_elo (team1.map (fun p => p.elo))
  let team1_elo_change :=
    (g.team1_score : ℝ) * calculate_elo_change (team1_pregame : ℝ) (team2_pregame : ℝ) true
    + (g.team2_score : ℝ) * calculate_elo_change (team1_pregame : ℝ) (team2_pregame : ℝ) false
  pure (ps.map (fun p =>
    if (sidePlayers g 1).any (fun pid => pid == p.id) then
      let e := p.elo + team1_elo_change
      { p with elo := e, season_best := if e > p.season_best then e else p.season_best }
    else if (sidePlayers g 2).any (fun pid => pid == p.id) then
      let e := p.elo - team1_elo_change
      { p with elo := e, season_best := if e > p.season_best then e else p.season_best }
    else p))

/-- Embedding of the `update_elo` game loop: skip games that cannot be
scored (before any cursor bookkeeping), decay when a game of a different
(non-null) season than the cursor is met, then apply the game. -/
noncomputable def eloLoop (seasons : List Season) :
    List Game → Option SeasonId → List CorePlayer →
    Except (String × List CorePlayer) (List CorePlayer × Option SeasonId)
  | [], cursor, ps => .ok (ps, cursor)
  | g :: rest, cursor, ps =>
    match canScore seasons g with
    | .error e => .error (e, ps)
    | .ok false => eloLoop seasons rest cursor ps
    | .ok true =>
      let (cursor2, ps2) :=
        match cursor with
        | none => (g.season, ps)
        | some c =>
          if g.season ≠ none ∧ g.season ≠ some c then (g.season, eloDecay ps)
          else (some c, ps)
      match eloGameStep g ps2 with
      | .error e => .error (e, ps2)
      | .ok ps3 => eloLoop seasons rest cursor2 ps3

/-- Embedding of `update_elo` on the columns it touches: filter approved
games, sort ascending by date (stably), reset every player to
`(1500, 0)`, replay, and decay once more when the cursor differs from the
current season. -/
noncomputable def eloCore (today : ℤ) (games : List Game) (seasons : List Season)
    (ids : List PlayerId) : Except (String × List CorePlayer) (List CorePlayer) :=
  match eloLoop seasons (sortK (fun g => g.date) (games.filter (fun g => g.state == 3)))
      none (ids.map (fun i => (⟨i, 1500, 0⟩ : CorePlayer))) with
  | .error e => .error e
  | .ok (ps, cursor) =>
    if cursor ≠ (currentSeason today seasons).map (fun s => s.id) then .ok (eloDecay ps)
    else .ok ps

/-- Positional write-back of the Elo pass results. -/
def writeElo (ps : List Player) (cs : List CorePlayer) : List Player :=
  List.zipWith (fun p c => { p with elo := c.elo, season_best := c.season_best }) ps cs

/-- Embedding of `signals.update_elo` as a transition on the stored state.
An exception carries the state as already mutated when it was raised. -/
noncomputable def update_elo (db : DB) : Except (String × DB) DB :=
  match eloCore db.today db.games db.seasons (db.players.map (fun p => p.id)) with
  | .ok cs => .ok { db with players := writeElo db.players cs }
  | .error (m, cs) => .error (m, { db with players := writeElo db.players cs })

/-! ## Seasonal scores (`signals.update_score` and
`SeasonRules.algorithm`) -/

/-- Embedding of the `score_2017` closure of `SeasonRules.algorithm`. -/
noncomputable def score_2017 (games_played rounds_played rounds_won : Nat)
    (_p : CorePlayer) : ℝ :=
  let win_rate : ℝ :=
    if rounds_played ≠ 0 then (rounds_won : ℝ) / (rounds_played : ℝ) else 0
  ((pytrunc (win_rate * (1 - Real.exp (-(games_played : ℝ) / 4)) * 1000) : ℤ) : ℝ)

/-- Embedding of the `score_2018` closure of `SeasonRules.algorithm`. -/
noncomputable def score_2018 (games_played rounds_played rounds_won : Nat)
    (_p : CorePlayer) : ℝ :=
  let win_rate : ℝ :=
    if rounds_played ≠ 0 then (rounds_won : ℝ) / (rounds_played : ℝ) else 0
  ((pytrunc ((rounds_won : ℝ)
      + win_rate * (1 / (1 + Real.exp (3 - (games_played : ℝ) / 2.5))) * 1000) : ℤ) : ℝ)

/-- Embedding of the `score_best_elo` closure of `SeasonRules.algorithm`. -/
def score_best_elo (_games_played _rounds_played _rounds_won : Nat)
    (p : CorePlayer) : ℝ :=
  p.season_best

/-- Embedding of the `score_elo` closure of `SeasonRules.algorithm`. -/
def score_elo (_games_played _rounds_played _rounds_won : Nat)
    (p : CorePlayer) : ℝ :=
  p.elo

/-- Embedding of the `SeasonRules.algorithm` property: dispatch on the
stored `score_algorithm` string; every unrecognized value (not only
`"elo"`) falls through to `score_elo`. -/
noncomputable def SeasonRules.algorithm (r : SeasonRules) :
    Nat → Nat → Nat → CorePlayer → ℝ :=
  if r.score_algorithm = "2017" then score_2017
  else if r.score_algorithm = "2018" then score_2018
  else if r.score_algorithm = "top_elo" then score_best_elo
  else score_elo

/-- The per-player dictionary keys of `update_score` in insertion order:
players of side 1 then side 2 of each game, first appearance wins. -/
def participants (games : List Game) : List PlayerId :=
  games.foldl (fun acc g =>
    (sidePlayers g 1 ++ sidePlayers g 2).foldl
      (fun acc2 pid => if pid ∈ acc2 then acc2 else acc2 ++ [pid]) acc) []

/-- The `(games, wins, rounds)` counters `update_score` accumulates for a
player over a list of games: one increment per side-1/side-2 relation row. -/
def playerCounters (games : List Game) (pid : PlayerId) : Nat × Nat × Nat :=
  games.foldl (fun acc g =>
    let on1 := (g.players.filter (fun r => r.team == 1 && r.player == pid)).length
    let on2 := (g.players.filter (fun r => r.team == 2 && r.player == pid)).length
    (acc.1 + on1 + on2,
     acc.2.1 + on1 * g.team1_score + on2 * g.team2_score,
     acc.2.2 + (on1 + on2) * (g.team1_score + g.team2_score)))
    (0, 0, 0)

/-- Embedding of the score-assignment loop of `update_score`: walk the
dictionary, resolve the season algorithm (raising when the season has no
rules row), and record each participant's new score. -/
noncomputable def scoreLoop (alg? : Option (Nat → Nat → Nat → CorePlayer → ℝ))
    (inputs : List CorePlayer) (games : List Game) :
    List PlayerId → List (PlayerId × ℝ) →
    Except (String × List (PlayerId × ℝ)) (List (PlayerId × ℝ))
  | [], acc => .ok acc
  | pid :: rest, acc =>
    match inputs.find? (fun c => c.id == pid) with
    | none => .error ("Player.DoesNotExist", acc)
    | some c =>
      match alg? with
      | none => .error ("AttributeError: NoneType has no algorithm", acc)
      | some alg =>
        let (gp, w, r) := playerCounters games pid
        scoreLoop alg? inputs games rest (acc ++ [(pid, alg gp r w c)])

/-- Embedding of `update_score` on the columns it touches.  The pass
filters the current season's approved games with no `can_score` check,
resets every score to 0, then assigns participant scores; an error before
the reset carries `none`. -/
noncomputable def scoreCore (today : ℤ) (games : List Game) (seasons : List Season)
    (inputs : List CorePlayer) :
    Except (String × Option (List (PlayerId × ℝ))) (List (PlayerId × ℝ)) :=
  match currentSeason today seasons with
  | none => .error ("AttributeError: NoneType has no id", none)
  | some season =>
    let games2 := games.filter (fun g => g.season == some season.id && g.state == 3)
    let alg? := season.rules.map SeasonRules.algorithm
    match scoreLoop alg? inputs games2 (participants games2) [] with
    | .ok acc => .ok acc
    | .error (m, acc) => .error (m, some acc)

/-- Write-back of the score pass: every player not in the assignment list
keeps the reset value 0. -/
def writeScore (ps : List Player) (acc : List (PlayerId × ℝ)) : List Player :=
  ps.map (fun p =>
    match acc.find? (fun a => a.1 == p.id) with
    | some a => { p with score := a.2 }
    | none => { p with score := 0 })

/-- Embedding of `signals.update_score` as a transition on the stored
state. -/
noncomputable def update_score (db : DB) : Except (String × DB) DB :=
  match scoreCore db.today db.games db.seasons (db.players.map toCore) with
  | .ok acc => .ok { db with players := writeScore db.players acc }
  | .error (m, some acc) => .error (m, { db with players := writeScore db.players acc })
  | .error (m, none) => .error (m, db)

/-! ## Rank classification (`signals.calculate_ranks`) -/

/-- Embedding of the `rank_distribution` construction of
`calculate_ranks`: thresholds `-3 + i * 6/(n-2)` for `i < n - 2`, each
paired with the catalog index of its rank; `range` of a negative Python
number is empty, matching truncated subtraction. -/
def rank_distribution (n : Nat) : List (ℚ × Nat) :=
  (List.range (n - 2)).map (fun (i : ℕ) => (((-3 : ℚ) + (i : ℚ) * (6 / ((n : ℚ) - 2)), i) : ℚ × Nat))

/-- The ladder threshold at index `i` for a catalog of `n` ranks. -/
def ladderThr (n i : Nat) : ℚ := (-3 : ℚ) + (i : ℚ) * (6 / ((n : ℚ) - 2))

/-- Embedding of the threshold scan of `calculate_ranks`: walk the ladder
in order, keep overwriting the candidate while the z-score exceeds the
threshold, stop at the first threshold not exceeded. -/
noncomputable def assignRank : List (ℚ × Nat) → ℝ → Option Nat → Option Nat
  | [], _, acc => acc
  | (t, r) :: rest, z, acc =>
    if (t : ℝ) < z then assignRank rest z (some r) else acc

/-- Embedding of the per-player statistic of the qualification loop of
`calculate_ranks`, season-scoped with no state or `can_score` filter.
For `GW` the code computes `gw1` with `.count()` but leaves `gw2` a bare
queryset, so `gw1 + gw2` raises `TypeError`; for `RP` (or any other
value) no branch assigns `value`, so the first player raises
`UnboundLocalError`. -/
def statValue (stat : String) (games : List Game) (sid : SeasonId) (pid : PlayerId) :
    Except String ℤ :=
  let sgames := games.filter (fun g => g.season == some sid)
  if stat = "GP" then
    .ok (((sgames.map (fun g =>
      (g.players.filter (fun r => r.player == pid)).length)).sum : ℕ) : ℤ)
  else if stat = "GW" then
    .error "TypeError: unsupported operand types int and QuerySet"
  else if stat = "RW" then
    .ok (((sgames.map (fun g =>
        (g.players.filter (fun r => r.team == 1 && r.player == pid)).length * g.team1_score
      + (g.players.filter (fun r => r.team == 2 && r.player == pid)).length * g.team2_score)).sum
      : ℕ) : ℤ)
  else .error "UnboundLocalError: value"

/-- Embedding of the qualification loop of `calculate_ranks`: keep the
players whose statistic is at least `rank_min_value`, in stored order. -/
def qualLoop (stat : String) (games : List Game) (sid : SeasonId) (minv : ℤ) :
    List (PlayerId × ℝ) → List (PlayerId × ℝ) → Except String (List (PlayerId × ℝ))
  | [], acc => .ok acc
  | (pid, sc) :: rest, acc =>
    match statValue stat games sid pid with
    | .error e => .error e
    | .ok v =>
      qualLoop stat games sid minv rest (if minv ≤ v then acc ++ [(pid, sc)] else acc)

/-- The condition `len(set(scores)) == 1` of `calculate_ranks`, on the
nonempty score list it is applied to: all scores equal. -/
def allEqual (l : List ℝ) : Prop := ∀ x ∈ l, ∀ y ∈ l, x = y

/-- Embedding of `calculate_ranks` on the columns it touches.  `zs`
abstracts `scipy.stats.zscore`, a fixed deterministic function returning
one float per input score.  The result is the new `rank` column, one
entry per input player; an error carries `none` when it is raised before
the `update(rank=None)` write and the cleared column otherwise.  The
ladder step `6 / (len(ranks) - 2)` raises `ZeroDivisionError` for a
catalog of exactly two ranks, before any write. -/
noncomputable def ranksCore (today : ℤ) (games : List Game) (seasons : List Season)
    (catalog : List Rank) (zs : List ℝ → List ℝ) (inputs : List (PlayerId × ℝ)) :
    Except (String × Option (List (Option Nat))) (List (Option Nat)) :=
  if catalog.length = 2 then .error ("ZeroDivisionError", none)
  else
    let dist := rank_distribution catalog.length
    let cleared : List (Option Nat) := inputs.map (fun _ => none)
    match currentSeason today seasons with
    | none => .error ("AttributeError: NoneType has no rules", some cleared)
    | some season =>
      match season.rules with
      | none => .error ("AttributeError: NoneType has no rank_statistic", some cleared)
      | some rules =>
        match qualLoop rules.rank_statistic games season.id rules.rank_min_value inputs [] with
        | .error e => .error (e, some cleared)
        | .ok ranked =>
          if ranked.isEmpty then .ok cleared
          else
            let scores := ranked.map (fun a => a.2)
            let z_scores :=
              if Classical.propDecidable (allEqual scores) |>.decide
              then scores.map (fun _ => (0 : ℝ)) else zs scores
            let assigned : List (PlayerId × Option Nat) :=
              (List.range ranked.length).map (fun i =>
                ((ranked.getD i (0, 0)).1, assignRank dist (z_scores.getD i 0) none))
            .ok (inputs.map (fun a =>
              match assigned.find? (fun b => b.1 == a.1) with
              | some b => b.2
              | none => none))

/-- Positional write-back of the rank column. -/
def writeRanks (ps : List Player) (rs : List (Option Nat)) : List Player :=
  List.zipWith (fun p r => { p with rank := r }) ps rs

/-- Embedding of `signals.calculate_ranks` as a transition on the stored
state. -/
noncomputable def calculate_ranks (zs : List ℝ → List ℝ) (db : DB) :
    Except (String × DB) DB :=
  match ranksCore db.today db.games db.seasons db.ranks zs
      (db.players.map (fun p => (p.id, p.score))) with
  | .ok rs => .ok { db with players := writeRanks db.players rs }
  | .error (m, some rs) => .error (m, { db with players := writeRanks db.players rs })
  | .error (m, none) => .error (m, db)

/-! ## Team ratings (`signals.update_team_score` and
`Team.find_or_create`) -/

/-- Embedding of `BACKUP_PENALTY_PERCENT`. -/
def BACKUP_PENALTY_PERCENT : ℝ := 22.45

/-- The match predicate of `Team.find_or_create`: chained
`filter(players=player)` keeps every team of the season whose member set
CONTAINS all the given players (a superset match, not an exact one). -/
def teamMatches (season : Option SeasonId) (pids : List PlayerId) (t : Team) : Bool :=
  t.season == season && pids.all (fun pid => t.members.any (fun m => m.player == pid))

/-- Embedding of `Team.find_or_create` over the team list: return the
position of the first matching team, non-virtual teams first
(`order_by('virtual').first()`), or append a new virtual team named by
concatenating the member names, with fresh membership rows
(`backup=False`) and default rating columns. -/
def find_or_create (teams : List Team) (season : Option SeasonId)
    (members : List (PlayerId × String)) : Nat × List Team :=
  let pids := members.map (fun m => m.1)
  let candidates := teams.enum.filter (fun it => teamMatches season pids it.2)
  match candidates.find? (fun it => !it.2.virtual) with
  | some it => (it.1, teams)
  | none =>
    match candidates with
    | it :: _ => (it.1, teams)
    | [] =>
      let name := String.join (members.map (fun m => m.2))
      let newTeam : Team :=
        { name := name, members := pids.map (fun pid => { player := pid, backup := false }),
          season := season, elo := 1500, season_best := 0, virtual := true }
      (teams.length, teams ++ [newTeam])

/-- The raw (pre-penalty) side-1 rating change of the
`update_team_score` loop body, `team1_elo_change` at line 137. -/
noncomputable def rawTeamDelta (team1_elo team2_elo : ℝ) (s1 s2 : Nat) : ℝ :=
  (s1 : ℝ) * calculate_elo_change team1_elo team2_elo true
  + (s2 : ℝ) * calculate_elo_change team1_elo team2_elo false

/-- Embedding of the rating-change computation of the
`update_team_score` loop body: the raw signed change for side 1, its
negation for side 2, then the backup penalty block.  The winning team is
side 1 exactly when `team1_score > team2_score` (so side 2 on a tie);
when it contains a backup the positive change among the two is scaled by
`1 - BACKUP_PENALTY_PERCENT / 100`. -/
noncomputable def teamDeltas (team1_elo team2_elo : ℝ) (s1 s2 : Nat)
    (backup1 backup2 : Bool) : ℝ × ℝ :=
  let team1_elo_change := rawTeamDelta team1_elo team2_elo s1 s2
  let team2_elo_change := -team1_elo_change
  let winnerIsTeam1 := decide (s2 < s1)
  let winnerBackup := if winnerIsTeam1 then backup1 else backup2
  if winnerBackup then
    let penalty_factor : ℝ := 1 - BACKUP_PENALTY_PERCENT / 100
    if winnerIsTeam1 = true ∧ team1_elo_change > 0 then
      (team1_elo_change * penalty_factor, team2_elo_change)
    else if team2_elo_change > 0 then
      (team1_elo_change, team2_elo_change * penalty_factor)
    else (team1_elo_change, team2_elo_change)
  else (team1_elo_change, team2_elo_change)

/-- Embedding of the `update_team_score` loop body for one scorable game
at position `gi` of the game table: find or create both side teams,
record the side relations, and apply the (possibly penalized) changes.
Both pregame ratings are read before either write, matching the two
Python instances; when both sides resolve to the same row the second
write wins, as the second stale `save()` does.  Player-name lookup
mirrors the relation row fetch, which cannot fail on a foreign-key
consistent store. -/
noncomputable def teamGameStep (playersT : List (PlayerId × String))
    (season : Option SeasonId) (gi : Nat) (g : Game) (teams : List Team) :
    List Team × (Nat × Nat × Nat) :=
  let nameOf := fun pid => (((playersT.find? (fun a => a.1 == pid)).map (fun a => a.2)).getD "")
  let m1 := (sidePlayers g 1).map (fun pid => (pid, nameOf pid))
  let m2 := (sidePlayers g 2).map (fun pid => (pid, nameOf pid))
  let r1 := find_or_create teams season m1
  let r2 := find_or_create r1.2 season m2
  match r2.2.get? r1.1, r2.2.get? r2.1 with
  | some t1, some t2 =>
    let cs := teamDeltas t1.elo t2.elo g.team1_score g.team2_score
        (t1.members.any (fun m => m.backup)) (t2.members.any (fun m => m.backup))
    let e1 := t1.elo + cs.1
    let e2 := t2.elo + cs.2
    let t1n := { t1 with
      elo := e1
      season_best := if e1 > t1.season_best then e1 else t1.season_best }
    let t2n := { t2 with
      elo := e2
      season_best := if e2 > t2.season_best then e2 else t2.season_best }
    (((r2.2.set r1.1 t1n).set r2.1 t2n), (gi, r1.1, r2.1))
  | _, _ => (r2.2, (gi, r1.1, r2.1))

/-- The body of `teamGameStep` after the two member lists `m1`, `m2` have
been formed (`teamGameStep` unfolds to this by `rfl`; specification device
used to reason about the loop body uniformly in the member lists). -/
noncomputable def teamGameStepWith (season : Option SeasonId) (gi : Nat) (g : Game)
    (m1 m2 : List (PlayerId × String)) (teams : List Team) :
    List Team × (Nat × Nat × Nat) :=
  let r1 := find_or_create teams season m1
  let r2 := find_or_create r1.2 season m2
  match r2.2.get? r1.1, r2.2.get? r2.1 with
  | some t1, some t2 =>
    let cs := teamDeltas t1.elo t2.elo g.team1_score g.team2_score
        (t1.members.any (fun m => m.backup)) (t2.members.any (fun m => m.backup))
    let e1 := t1.elo + cs.1
    let e2 := t2.elo + cs.2
    let t1n := { t1 with
      elo := e1
      season_best := if e1 > t1.season_best then e1 else t1.season_best }
    let t2n := { t2 with
      elo := e2
      season_best := if e2 > t2.season_best then e2 else t2.season_best }
    (((r2.2.set r1.1 t1n).set r2.1 t2n), (gi, r1.1, r2.1))
  | _, _ => (r2.2, (gi, r1.1, r2.1))

/-- Embedding of the `update_team_score` game loop: skip games that
cannot be scored, otherwise run the body and record the side-relation
upsert. -/
noncomputable def teamLoop (playersT : List (PlayerId × String))
    (season : Option SeasonId) (seasons : List Season) :
    List (Nat × Game) → List Team → List (Nat × Nat × Nat) →
    Except (String × List Team × List (Nat × Nat × Nat))
           (List Team × List (Nat × Nat × Nat))
  | [], teams, ups => .ok (teams, ups)
  | (gi, g) :: rest, teams, ups =>
    match canScore seasons g with
    | .error e => .error (e, teams, ups)
    | .ok false => teamLoop playersT season seasons rest teams ups
    | .ok true =>
      let st := teamGameStep playersT season gi g teams
      teamLoop playersT season seasons rest st.1 (ups ++ [st.2])

/-- The team-rating reset of `update_team_score`: rating columns back to
their defaults, identity columns untouched. -/
def resetTeam (t : Team) : Team := { t with elo := (1500 : ℝ), season_best := (0 : ℝ) }

/-- Embedding of `update_team_score` on the columns it touches: delete
virtual teams, reset every remaining team to `(1500, 0)`, and replay the
current season's approved games in date order. -/
noncomputable def teamCore (today : ℤ) (games : List Game) (seasons : List Season)
    (playersT : List (PlayerId × String)) (baseTeams : List Team) :
    Except (String × List Team × List (Nat × Nat × Nat))
           (List Team × List (Nat × Nat × Nat)) :=
  teamLoop playersT ((currentSeason today seasons).map (fun s => s.id)) seasons
    (sortK (fun x => x.2.date)
      (games.enum.filter (fun x =>
        x.2.season == (currentSeason today seasons).map (fun s => s.id) &&
        x.2.state == 3)))
    ((baseTeams.filter (fun t => !t.virtual)).map resetTeam) []

/-- Application of the recorded `GameTeamRelation` upserts
(`update_or_create` keyed by game and side). -/
def applyUps (ups : List (Nat × Nat × Nat)) (gt : Nat → Option (Nat × Nat)) :
    Nat → Option (Nat × Nat) :=
  ups.foldl (fun f u => fun k => if k = u.1 then some (u.2.1, u.2.2) else f k) gt

/-- The last upsert of an upsert list for a key, if any (specification
device for `applyUps`). -/
def selUps : List (Nat × Nat × Nat) → Nat → Option (Nat × Nat)
  | [], _ => none
  | u :: rest, k =>
    match selUps rest k with
    | some v => some v
    | none => if k = u.1 then some (u.2.1, u.2.2) else none

/-- Embedding of `signals.update_team_score` as a transition on the
stored state. -/
noncomputable def update_team_score (db : DB) : Except (String × DB) DB :=
  match teamCore db.today db.games db.seasons
      (db.players.map (fun p => (p.id, p.name))) db.teams with
  | .ok (ts, ups) =>
    .ok { db with teams := ts, gameTeams := applyUps ups db.gameTeams }
  | .error (m, ts, ups) =>
    .error (m, { db with teams := ts, gameTeams := applyUps ups db.gameTeams })

/-- Embedding of `signals.update_statistics`, the full recompute
pipeline, parametric in the `zscore` implementation. -/
noncomputable def recompute (zs : List ℝ → List ℝ) (db : DB) :
    Except (String × DB) DB := do
  let db1 ← update_elo db
  let db2 ← update_score db1
  let db3 ← calculate_ranks zs db2
  update_team_score db3

/-! ## Derived definitions used in the statements -/

/-- The value `calculate_team_elo` returns on a nonempty member list. -/
noncomputable def team_elo_val (elos : List ℝ) : ℤ :=
  pytrunc (elos.sum / (elos.length : ℝ))

/-- The gap entry `create_equal_teams` builds for one combination:
the complement side and the absolute difference of truncated mean
ratings. -/
noncomputable def gapEntry (players team1 : List Player) : ℤ × List Player × List Player :=
  let team2 := players.filter (fun p => ¬ team1.any (fun q => q.id = p.id))
  (|team_elo_val (team1.map (fun p => p.elo))
    - team_elo_val (team2.map (fun p => p.elo))|, team1, team2)

/-- Replace the `rules` reference of every season (used to state that the
Elo pass never reads `SeasonRules`, in particular not `elo_decay`). -/
def mapRules (f : Season → Option SeasonRules) (seasons : List Season) : List Season :=
  seasons.map (fun s => { s with rules := f s })

/-! ## Concrete stored states used by witnesses and counterexamples -/

/-- Identity z-score stand-in for witnesses (any fixed function works). -/
def zs0 : List ℝ → List ℝ := fun l => l

/-- A season ruleset with an unrecognized `score_algorithm` value. -/
def bogusRules : SeasonRules :=
  { name := "r", elo_decay := true, score_algorithm := "bogus",
    rank_statistic := "RW", rank_min_value := 5 }

def rulesGP : SeasonRules :=
  { name := "gp", elo_decay := true, score_algorithm := "elo",
    rank_statistic := "GP", rank_min_value := 5 }

def rulesGW : SeasonRules :=
  { name := "gw", elo_decay := true, score_algorithm := "elo",
    rank_statistic := "GW", rank_min_value := 0 }

/-- A season ruleset with `elo_decay` disabled. -/
def rulesOff : SeasonRules :=
  { name := "off", elo_decay := false, score_algorithm := "elo",
    rank_statistic := "RW", rank_min_value := 5 }

def rulesOn : SeasonRules :=
  { name := "on", elo_decay := true, score_algorithm := "elo",
    rank_statistic := "RW", rank_min_value := 5 }

def grC1 : GameRules :=
  { min_players := 2, max_players := 2, min_rounds := 2, max_rounds := 3 }

def grC8 : GameRules :=
  { min_players := 3, max_players := 3, min_rounds := 2, max_rounds := 3 }

def seasonGP : Season :=
  { id := 1, start_date := 0, rules := some rulesGP, game_rules := none }

def seasonGW : Season :=
  { id := 1, start_date := 0, rules := some rulesGW, game_rules := none }

def seasonA : Season :=
  { id := 1, start_date := 0, rules := some rulesOn, game_rules := some grC1 }

def seasonB : Season :=
  { id := 2, start_date := 10, rules := some rulesOff, game_rules := some grC1 }

def pl1 : Player :=
  { id := 1, name := "A", elo := 1500, score := 0, season_best := 0, rank := none }

def pl2 : Player :=
  { id := 2, name := "B", elo := 1500, score := 0, season_best := 0, rank := none }

def pl3 : Player :=
  { id := 3, name := "C", elo := 1500, score := 0, season_best := 0, rank := none }

/-- A player holding a rank, to watch the rank column being cleared. -/
def plR : Player :=
  { id := 1, name := "R", elo := 1500, score := 0, season_best := 0, rank := some 0 }

def rkA : Rank := { name := "a", numerical_value := 0 }
def rkB : Rank := { name := "b", numerical_value := 1 }
def rkC : Rank := { name := "c", numerical_value := 2 }

/-- An approved, scorable, tied game of season 1 between players 1 and 2. -/
def gameC1 : Game :=
  { season := some 1, _rules := none, date := 1, team1_score := 1,
    team2_score := 1, state := 3,
    players := [{ player := 1, team := 1 }, { player := 2, team := 2 }] }

/-- A stored state whose whole history lies in season 1 while season 2 —
whose ruleset disables decay — is the active one. -/
def dbC1 : DB :=
  { today := 10, players := [pl1, pl2], games := [gameC1],
    seasons := [seasonA, seasonB], ranks := [], teams := [],
    gameTeams := fun _ => none }

/-- An approved game that `can_score` rejects: player 3 is unassigned. -/
def gameC8 : Game :=
  { season := some 1, _rules := some grC8, date := 0, team1_score := 2,
    team2_score := 0, state := 3,
    players := [{ player := 1, team := 1 }, { player := 2, team := 2 },
                { player := 3, team := 0 }] }

def dbC8 : DB :=
  { today := 0, players := [pl1, pl2, pl3], games := [gameC8],
    seasons := [seasonGP], ranks := [], teams := [],
    gameTeams := fun _ => none }

/-- A catalog of exactly two ranks (the `ZeroDivisionError` case). -/
def db2rank : DB :=
  { today := 0, players := [], games := [], seasons := [seasonGP],
    ranks := [rkA, rkB], teams := [], gameTeams := fun _ => none }

/-- A catalog of exactly one rank: `range(len(ranks) - 2)` is empty in
Python and the pass completes. -/
def db1rank : DB :=
  { today := 0, players := [plR], games := [], seasons := [seasonGP],
    ranks := [rkA], teams := [], gameTeams := fun _ => none }

/-- A season whose rank statistic is games-won, with one player. -/
def dbGW : DB :=
  { today := 0, players := [plR], games := [], seasons := [seasonGW],
    ranks := [rkA, rkB, rkC], teams := [], gameTeams := fun _ => none }

/-- An empty store with one configured season: a fixed point of the
pipeline. -/
def db0 : DB :=
  { today := 0, players := [], games := [], seasons := [seasonGP],
    ranks := [], teams := [], gameTeams := fun _ => none }

/-- An existing non-virtual team of season 1 whose members are players 1
and 2. -/
def teamAB : Team :=
  { name := "AB", members := [{ player := 1, backup := false },
                              { player := 2, backup := false }],
    season := some 1, elo := 1500, season_best := 0, virtual := false }

def plW1 : Player :=
  { id := 1, name := "p1", elo := 1000, score := 0, season_best := 0, rank := none }
def plW2 : Player :=
  { id := 2, name := "p2", elo := 1000, score := 0, season_best := 0, rank := none }
def plW3 : Player :=
  { id := 3, name := "p3", elo := 1000, score := 0, season_best := 0, rank := none }
def plW4 : Player :=
  { id := 4, name := "p4", elo := 3000, score := 0, season_best := 0, rank := none }

/-! ## Theorems -/

/-- Python `int()` of an exact integer value is that integer. -/
theorem pytrunc_intCast (n : ℤ) : pytrunc ((n : ℤ) : ℝ) = n := by
  unfold pytrunc
  by_cases h : (0 : ℝ) ≤ ((n : ℤ) : ℝ)
  · rw [if_pos h, Int.floor_intCast]
  · rw [if_neg h, ← Int.cast_neg, Int.floor_intCast, neg_neg]

/-- C9 amended, helper-free form: every `score_algorithm` value other
than the three explicitly tested ones selects `score_elo`. -/
theorem algorithm_falls_back_to_elo (r : SeasonRules)
    (h1 : r.score_algorithm ≠ "2017") (h2 : r.score_algorithm ≠ "2018")
    (h3 : r.score_algorithm ≠ "top_elo") :
    SeasonRules.algorithm r = score_elo := by
  unfold SeasonRules.algorithm
  rw [if_neg h1, if_neg h2, if_neg h3]

/-- Witness for `algorithm_falls_back_to_elo` at the concrete
unrecognized value `"bogus"`. -/
theorem algorithm_falls_back_to_elo_witness :
    SeasonRules.algorithm bogusRules = score_elo :=
  algorithm_falls_back_to_elo bogusRules (by decide) (by decide) (by decide)

/-- C9 counterexample: an unrecognized `score_algorithm` is silently
mapped to the default `score_elo` rather than surfaced as an error. -/
theorem algorithm_bogus_is_silent :
    bogusRules.score_algorithm ∉ (["2017", "2018", "elo", "top_elo"] : List String) ∧
    SeasonRules.algorithm bogusRules = score_elo := by
  refine ⟨by decide, ?_⟩
  unfold SeasonRules.algorithm
  rfl

/-- C10 amended: with a catalog of exactly two ranks, `calculate_ranks`
raises `ZeroDivisionError` while building the ladder step, before any
rank is cleared or assigned — the state in the error is untouched. -/
theorem calculate_ranks_two_ranks_divzero (zs : List ℝ → List ℝ) (db : DB)
    (h : db.ranks.length = 2) :
    calculate_ranks zs db = .error ("ZeroDivisionError", db) := by
  unfold calculate_ranks ranksCore
  rw [if_pos h]

/-- Witness for `calculate_ranks_two_ranks_divzero` on a concrete
two-rank store. -/
theorem calculate_ranks_two_ranks_divzero_witness :
    calculate_ranks zs0 db2rank = .error ("ZeroDivisionError", db2rank) :=
  calculate_ranks_two_ranks_divzero zs0 db2rank rfl

/-- C10 counterexample: with a catalog of exactly one rank the pass does
not fail (Python `range(-1)` is empty), refuting that the operation is
only defined for three or more ranks. -/
theorem calculate_ranks_one_rank_ok :
    db1rank.ranks.length = 1 ∧
    calculate_ranks zs0 db1rank =
      .ok { db1rank with players := [{ plR with rank := none }] } :=
  ⟨rfl, rfl⟩

/-- C7: with the games-won statistic configured, the qualification loop
raises `TypeError` (the code builds `gw2` without `.count()` and adds it
to an `int`) for the very first player; the rank column has already been
cleared, and nothing else is written. -/
theorem calculate_ranks_games_won_type_error :
    dbGW.players = [plR] ∧ plR.rank = some 0 ∧
    (seasonGW.rules.map (fun r => r.rank_statistic)) = some "GW" ∧
    calculate_ranks zs0 dbGW =
      .error ("TypeError: unsupported operand types int and QuerySet",
              { dbGW with players := [{ plR with rank := none }] }) :=
  ⟨rfl, rfl, rfl, rfl⟩

/-- C8 counterexample: a stored approved game that `can_score` rejects
(player 3 unassigned) still feeds the score accumulation: the score pass
counts one game, two rounds and two round wins for player 1 and assigns
both assigned players a score. -/
theorem update_score_counts_unscorable_game :
    canScore dbC8.seasons gameC8 = .ok false ∧
    scoreCore dbC8.today dbC8.games dbC8.seasons
      [⟨1, 1500, 0⟩, ⟨2, 1500, 0⟩, ⟨3, 1500, 0⟩] =
      .ok [(1, 1500), (2, 1500)] ∧
    playerCounters dbC8.games 1 = (1, 2, 2) :=
  ⟨rfl, rfl, rfl⟩

/-- C5 counterexample: `find_or_create` reuses an existing team whose
member set strictly contains the requested players — the chained
`filter(players=player)` is a superset match, not an exact one. -/
theorem find_or_create_superset_match :
    find_or_create [teamAB] (some 1) [(1, "A")] = (0, [teamAB]) ∧
    ∃ m ∈ teamAB.members, m.player ∉ ([1] : List PlayerId) := by
  refine ⟨rfl, ⟨{ player := 2, backup := false }, by decide, by decide⟩⟩

/-- Helper: full case analysis of the penalty block on a tied game.  The
winner selection `team1 if s1 > s2 else team2` picks side 2, so the
penalty gate tests side 2's backups and scales side 2's change when
positive; side 1's change is never scaled. -/
theorem teamDeltas_tie_cases (e1 e2 : ℝ) (s : Nat) (b1 b2 : Bool) :
    teamDeltas e1 e2 s s b1 b2 =
      (rawTeamDelta e1 e2 s s,
       if b2 = true ∧ 0 < -rawTeamDelta e1 e2 s s
       then -rawTeamDelta e1 e2 s s * (1 - BACKUP_PENALTY_PERCENT / 100)
       else -rawTeamDelta e1 e2 s s) := by
  unfold teamDeltas
  simp only [Nat.lt_irrefl, decide_False, Bool.false_eq_true, if_false, false_and]
  cases b2 with
  | false => simp
  | true =>
    simp only [if_true, true_and]
    by_cases h : 0 < -rawTeamDelta e1 e2 s s
    · simp [h]
    · simp [h]

/-- Helper: with pregame ratings 1532 versus 1500, side 1's raw change on
a 1–1 game is negative (the higher-rated side loses rating on a tie). -/
theorem rawTeamDelta_1532_1500_neg : rawTeamDelta 1532 1500 1 1 < 0 := by
  unfold rawTeamDelta calculate_elo_change ELO_K
  have ht1 : (0 : ℝ) < (10 : ℝ) ^ (((1500 : ℝ) - 1532) / 400) :=
    Real.rpow_pos_of_pos (by norm_num) _
  have ht2 : (10 : ℝ) ^ (((1500 : ℝ) - 1532) / 400) < 1 :=
    Real.rpow_lt_one_of_one_lt_of_neg (by norm_num) (by norm_num)
  set t := (10 : ℝ) ^ (((1500 : ℝ) - 1532) / 400) with ht
  have h1t : (0 : ℝ) < 1 + t := by linarith
  have hEa : (1 : ℝ) / 2 < 1 / (1 + t) := by
    rw [div_lt_div_iff₀ (by norm_num) h1t]; linarith
  simp only [one_div] at hEa
  push_cast
  norm_num
  linarith [hEa]

/-- C4 amended: on equal round counts the backup penalty is skipped for
side 1 (its change is the raw one whatever the backup flags), but side 2
is treated as the winning side: when it contains a backup and its change
is positive, that change is scaled by `1 − 0.2245`. -/
theorem teamDeltas_tie_no_winner (e1 e2 : ℝ) (s : Nat) (b1 b2 : Bool) :
    (teamDeltas e1 e2 s s b1 b2).1 = rawTeamDelta e1 e2 s s ∧
    (b2 = true → 0 < -rawTeamDelta e1 e2 s s →
      (teamDeltas e1 e2 s s b1 b2).2 =
        -rawTeamDelta e1 e2 s s * (1 - BACKUP_PENALTY_PERCENT / 100)) := by
  rw [teamDeltas_tie_cases]
  exact ⟨rfl, fun hb hpos => by simp [hb, hpos]⟩

/-- Witness for `teamDeltas_tie_no_winner` at ratings 1532/1500, scores
1–1, a backup on side 2: both inner hypotheses are discharged. -/
theorem teamDeltas_tie_no_winner_witness :
    (teamDeltas 1532 1500 1 1 false true).1 = rawTeamDelta 1532 1500 1 1 ∧
    (teamDeltas 1532 1500 1 1 false true).2 =
      -rawTeamDelta 1532 1500 1 1 * (1 - BACKUP_PENALTY_PERCENT / 100) := by
  have hneg := rawTeamDelta_1532_1500_neg
  exact ⟨(teamDeltas_tie_no_winner 1532 1500 1 false true).1,
         (teamDeltas_tie_no_winner 1532 1500 1 false true).2 rfl (by linarith)⟩

/-- C4 counterexample: a processed match with equal round counts (1–1),
side-1 pregame rating 1532, side-2 pregame rating 1500 and a backup on
side 2: side 2's rating change IS scaled by `1 − 0.2245` — it differs
from the unpenalized change — refuting that the penalty is always
skipped on a tie. -/
theorem teamDeltas_tie_penalty_applied :
    (teamDeltas 1532 1500 1 1 false true).2 ≠ -rawTeamDelta 1532 1500 1 1 ∧
    (teamDeltas 1532 1500 1 1 false true).1 = rawTeamDelta 1532 1500 1 1 := by
  have hneg := rawTeamDelta_1532_1500_neg
  have hpos : 0 < -rawTeamDelta 1532 1500 1 1 := by linarith
  rw [teamDeltas_tie_cases]
  refine ⟨?_, rfl⟩
  simp only [hpos, and_true, if_pos, true_and, if_true]
  unfold BACKUP_PENALTY_PERCENT
  intro hEq
  nlinarith [hpos, hEq]

/-- Helper: `rank_distribution` in terms of `ladderThr`. -/
theorem rank_distribution_eq (n : Nat) :
    rank_distribution n = (List.range (n - 2)).map (fun i => (ladderThr n i, i)) := rfl

/-- Helper: the threshold ladder is monotone in the index once the
catalog has at least three ranks. -/
theorem ladderThr_mono (N : Nat) (hN : 3 ≤ N) (k j : Nat) (hkj : k ≤ j) :
    ladderThr N k ≤ ladderThr N j := by
  unfold ladderThr
  have hN3 : (3 : ℚ) ≤ (N : ℚ) := by exact_mod_cast hN
  have hstep : (0 : ℚ) < 6 / ((N : ℚ) - 2) := by
    apply div_pos (by norm_num); linarith
  have hk : (k : ℚ) ≤ (j : ℚ) := by exact_mod_cast hkj
  nlinarith

/-- Helper: the scan walks through a block whose thresholds the z-score
all exceeds, overwriting the accumulator with each rank in turn. -/
theorem assignRank_append (l₁ l₂ : List (ℚ × Nat)) (z : ℝ) (acc : Option Nat)
    (h : ∀ a ∈ l₁, ((a.1 : ℚ) : ℝ) < z) :
    assignRank (l₁ ++ l₂) z acc =
      assignRank l₂ z (l₁.foldl (fun _ p => some p.2) acc) := by
  induction l₁ generalizing acc with
  | nil => rfl
  | cons a l ih =>
    obtain ⟨t, r⟩ := a
    simp only [List.cons_append, assignRank]
    rw [if_pos (h (t, r) (by simp))]
    simpa using ih (some r) (fun b hb => h b (by simp [hb]))

/-- Helper: overwriting fold of a block ending in `a` yields `a`'s rank. -/
theorem foldl_overwrite_last (l : List (ℚ × Nat)) (a : ℚ × Nat) (acc : Option Nat) :
    (l ++ [a]).foldl (fun _ p => some p.2) acc = some a.2 := by
  simp [List.foldl_append]

/-- C6: for a catalog of `N ≥ 3` ranks, the scan of `calculate_ranks`
assigns (1) no rank when the z-score does not strictly exceed the lowest
threshold `-3`; (2) the rank attached to the largest threshold strictly
below the z-score; (3) in particular the rank at catalog position `N-3`
(the top non-sentinel rank) when the z-score exceeds every threshold. -/
theorem calculate_ranks_threshold_scan (N : Nat) (hN : 3 ≤ N) (z : ℝ) :
    (¬ (((-3 : ℚ) : ℝ) < z) → assignRank (rank_distribution N) z none = none) ∧
    (∀ j, j < N - 2 → ((ladderThr N j : ℚ) : ℝ) < z →
      (∀ k, k < N - 2 → ((ladderThr N k : ℚ) : ℝ) < z → k ≤ j) →
      assignRank (rank_distribution N) z none = some j) ∧
    ((∀ k, k < N - 2 → ((ladderThr N k : ℚ) : ℝ) < z) →
      assignRank (rank_distribution N) z none = some (N - 3)) := by
  have hpart2 : ∀ j, j < N - 2 → ((ladderThr N j : ℚ) : ℝ) < z →
      (∀ k, k < N - 2 → ((ladderThr N k : ℚ) : ℝ) < z → k ≤ j) →
      assignRank (rank_distribution N) z none = some j := by
    intro j hj hthr hmax
    have hsum : N - 2 = (j + 1) + (N - 2 - (j + 1)) := by omega
    rw [rank_distribution_eq, hsum, List.range_add, List.map_append]
    rw [assignRank_append]
    · have hpre : (List.range (j + 1)).map (fun i => (ladderThr N i, i)) =
          (List.range j).map (fun i => (ladderThr N i, i)) ++ [(ladderThr N j, j)] := by
        rw [show j + 1 = Nat.succ j from rfl, List.range_succ, List.map_append]
        rfl
      rw [hpre, foldl_overwrite_last]
      rcases Nat.eq_zero_or_pos (N - 2 - (j + 1)) with h0 | hpos
      · rw [h0]
        rfl
      · obtain ⟨m, hm⟩ : ∃ m, N - 2 - (j + 1) = m + 1 := ⟨N - 2 - (j + 1) - 1, by omega⟩
        rw [hm, List.range_succ_eq_map]
        simp only [List.map_cons, List.map_map, assignRank]
        rw [if_neg]
        intro hcon
        have := hmax (j + 1 + 0) (by omega) (by simpa using hcon)
        omega
    · intro a ha
      simp only [List.mem_map, List.mem_range] at ha
      obtain ⟨k, hk, rfl⟩ := ha
      have hle : ladderThr N k ≤ ladderThr N j := ladderThr_mono N hN k j (by omega)
      calc ((ladderThr N k : ℚ) : ℝ) ≤ ((ladderThr N j : ℚ) : ℝ) := by exact_mod_cast hle
        _ < z := hthr
  refine ⟨?_, hpart2, ?_⟩
  · intro hz
    obtain ⟨m, hm⟩ : ∃ m, N - 2 = m + 1 := ⟨N - 3, by omega⟩
    rw [rank_distribution_eq, hm, List.range_succ_eq_map]
    simp only [List.map_cons, assignRank]
    rw [if_neg]
    intro hcon
    apply hz
    have h0 : ladderThr N 0 = -3 := by
      unfold ladderThr; push_cast; ring
    rw [h0] at hcon
    exact hcon
  · intro hall
    exact hpart2 (N - 3) (by omega) (hall (N - 3) (by omega))
      (fun k hk _ => by omega)

/-- Witness for `calculate_ranks_threshold_scan`: four ranks give the
ladder `[-3, 0]`; a z-score of 0 exceeds only `-3` and receives the rank
at catalog position 0. -/
theorem calculate_ranks_threshold_scan_witness :
    assignRank (rank_distribution 4) (0 : ℝ) none = some 0 := by
  refine (calculate_ranks_threshold_scan 4 (by norm_num) 0).2.1 0 (by norm_num) ?_ ?_
  · show ((ladderThr 4 0 : ℚ) : ℝ) < 0
    unfold ladderThr
    push_cast
    norm_num
  · intro k hk hthr
    interval_cases k
    · omega
    · exfalso
      unfold ladderThr at hthr
      push_cast at hthr
      norm_num at hthr

/-- Helper: season lookup commutes with replacing the `rules` column. -/
theorem findSeason_mapRules (f : Season → Option SeasonRules) (seasons : List Season)
    (i : SeasonId) :
    findSeason (mapRules f seasons) i =
      (findSeason seasons i).map (fun s => { s with rules := f s }) := by
  induction seasons with
  | nil => rfl
  | cons s rest ih =>
    unfold mapRules at ih ⊢
    by_cases h : s.id = i
    · simp [findSeason, List.find?_cons, h]
    · simpa [findSeason, List.find?_cons, h] using ih

/-- Helper: rule resolution of a game never reads `SeasonRules`. -/
theorem gameRulesOf_mapRules (f : Season → Option SeasonRules) (seasons : List Season)
    (g : Game) : gameRulesOf (mapRules f seasons) g = gameRulesOf seasons g := by
  have h : (g.season.bind fun i => (findSeason (mapRules f seasons) i).bind fun s => s.game_rules)
      = (g.season.bind fun i => (findSeason seasons i).bind fun s => s.game_rules) := by
    cases g.season with
    | none => rfl
    | some i =>
      simp only [Option.some_bind, findSeason_mapRules]
      cases findSeason seasons i <;> rfl
  unfold gameRulesOf
  rw [h]

/-- Helper: `can_score` never reads `SeasonRules`. -/
theorem canScore_mapRules (f : Season → Option SeasonRules) (seasons : List Season)
    (g : Game) : canScore (mapRules f seasons) g = canScore seasons g := by
  unfold canScore
  rw [gameRulesOf_mapRules]

/-- Helper: the active-season fold step commutes with replacing the
`rules` column, which leaves `start_date` untouched. -/
theorem chooseLater_mapRules (f : Season → Option SeasonRules) (acc : Option Season)
    (s : Season) :
    chooseLater (acc.map (fun s : Season => { s with rules := f s }))
        { s with rules := f s } =
      (chooseLater acc s).map (fun s : Season => { s with rules := f s }) := by
  cases acc with
  | none => rfl
  | some b =>
    show (if b.start_date < s.start_date
          then some ({ s with rules := f s } : Season)
          else some ({ b with rules := f b } : Season))
        = (if b.start_date < s.start_date then some s else some b).map
            (fun s : Season => { s with rules := f s })
    by_cases h : b.start_date < s.start_date
    · rw [if_pos h, if_pos h]; rfl
    · rw [if_neg h, if_neg h]; rfl

/-- Helper: the active-season computation commutes with replacing the
`rules` column. -/
theorem currentSeason_mapRules (f : Season → Option SeasonRules) (today : ℤ)
    (seasons : List Season) :
    currentSeason today (mapRules f seasons) =
      (currentSeason today seasons).map (fun s : Season => { s with rules := f s }) := by
  unfold currentSeason mapRules
  rw [List.filter_map]
  have hcomp : (fun s : Season => decide (s.start_date ≤ today)) ∘
      (fun s : Season => { s with rules := f s }) = fun s : Season => decide (s.start_date ≤ today) := rfl
  rw [hcomp]
  generalize seasons.filter (fun s : Season => decide (s.start_date ≤ today)) = l
  have hfold : ∀ (acc : Option Season),
      (l.map (fun s : Season => { s with rules := f s })).foldl chooseLater
        (acc.map (fun s : Season => { s with rules := f s })) =
      (l.foldl chooseLater acc).map (fun s : Season => { s with rules := f s }) := by
    induction l with
    | nil => intro acc; rfl
    | cons s rest ih =>
      intro acc
      simp only [List.map_cons, List.foldl_cons]
      rw [chooseLater_mapRules]
      exact ih (chooseLater acc s)
  simpa using hfold none

/-- Helper: the Elo replay loop never reads `SeasonRules`. -/
theorem eloLoop_mapRules (f : Season → Option SeasonRules) (seasons : List Season)
    (games : List Game) :
    ∀ (cursor : Option SeasonId) (ps : List CorePlayer),
      eloLoop (mapRules f seasons) games cursor ps = eloLoop seasons games cursor ps := by
  induction games with
  | nil => intro cursor ps; rfl
  | cons g rest ih =>
    intro cursor ps
    simp only [eloLoop]
    rw [canScore_mapRules]
    cases canScore seasons g with
    | error e => rfl
    | ok b =>
      cases b
      · exact ih cursor ps
      · cases cursor with
        | none =>
          simp only []
          cases eloGameStep g ps with
          | error e => rfl
          | ok ps3 => exact ih g.season ps3
        | some c =>
          by_cases hc : g.season ≠ none ∧ g.season ≠ some c
          · simp only [if_pos hc]
            cases eloGameStep g (eloDecay ps) with
            | error e => rfl
            | ok ps3 => exact ih g.season ps3
          · simp only [if_neg hc]
            cases eloGameStep g ps with
            | error e => rfl
            | ok ps3 => exact ih (some c) ps3

/-- C1 amended: the full-history Elo recomputation is invariant under
arbitrary replacement of every season's `SeasonRules` row — in
particular of its `elo_decay` flag.  Decay at season boundaries is
applied unconditionally; the flag is never consulted. -/
theorem update_elo_ignores_season_rules (today : ℤ) (games : List Game)
    (seasons : List Season) (ids : List PlayerId) (f : Season → Option SeasonRules) :
    eloCore today games (mapRules f seasons) ids = eloCore today games seasons ids := by
  unfold eloCore
  rw [eloLoop_mapRules, currentSeason_mapRules]
  cases eloLoop seasons (sortK (fun g => g.date) (games.filter (fun g => g.state == 3)))
      none (ids.map (fun i => (⟨i, 1500, 0⟩ : CorePlayer))) with
  | error e => rfl
  | ok r =>
    obtain ⟨ps, cursor⟩ := r
    simp only []
    cases currentSeason today seasons <;> rfl

/-- Helper: reduction of a successful `Except` bind. -/
theorem except_bind_ok (a : α) (f : α → Except ε β) :
    (Except.ok a : Except ε α) >>= f = f a := rfl

/-- Helper: reduction of a failed `Except` bind. -/
theorem except_bind_error (e : ε) (f : α → Except ε β) :
    (Except.error e : Except ε α) >>= f = Except.error e := rfl

/-- Helper: the truncated mean of the one-element rating list `[1500]`. -/
theorem calculate_team_elo_single : calculate_team_elo [(1500 : ℝ)] = .ok 1500 := by
  unfold calculate_team_elo
  rw [if_neg (by simp)]
  have h : [(1500 : ℝ)].sum / (([(1500 : ℝ)].length : ℕ) : ℝ) = ((1500 : ℤ) : ℝ) := by
    norm_num
  rw [h, pytrunc_intCast]

/-- Helper: the Elo change between equal ratings has expected score 1/2. -/
theorem calculate_elo_change_self (x : ℝ) (w : Bool) :
    calculate_elo_change x x w = ELO_K * ((if w then (1 : ℝ) else 0) - 1 / 2) := by
  unfold calculate_elo_change
  rw [sub_self, zero_div, Real.rpow_zero]
  norm_num

/-- Helper: a 1–1 game between equally rated sides moves no rating. -/
theorem tie_change_zero (x : ℝ) :
    calculate_elo_change x x true + calculate_elo_change x x false = 0 := by
  rw [calculate_elo_change_self, calculate_elo_change_self]
  norm_num

/-- Helper: evaluation of the Elo game step on the concrete tied game. -/
theorem eloGameStep_C1 :
    eloGameStep gameC1 [⟨1, 1500, 0⟩, ⟨2, 1500, 0⟩] =
      .ok [⟨1, 1500, 1500⟩, ⟨2, 1500, 1500⟩] := by
  unfold eloGameStep
  norm_num [gameC1, sidePlayers, calculate_team_elo_single, tie_change_zero, except_bind_ok]

/-- Helper: replaying the one tied game leaves both players at 1500 with
`season_best` 1500. -/
theorem eloLoop_C1 :
    eloLoop dbC1.seasons [gameC1] none [⟨1, 1500, 0⟩, ⟨2, 1500, 0⟩] =
      .ok ([⟨1, 1500, 1500⟩, ⟨2, 1500, 1500⟩], some 1) := by
  have hcs : canScore dbC1.seasons gameC1 = .ok true := rfl
  simp only [eloLoop, hcs]
  rw [eloGameStep_C1]
  rfl

/-- Helper: the full Elo pass on `dbC1` ends with the boundary decay
applied — `season_best` is reset to 0 — although the active season's
ruleset disables decay. -/
theorem eloCore_C1 :
    eloCore dbC1.today dbC1.games dbC1.seasons [1, 2] =
      .ok [⟨1, 1500, 0⟩, ⟨2, 1500, 0⟩] := by
  unfold eloCore
  rw [show sortK (fun g => g.date) (dbC1.games.filter (fun g => g.state == 3)) = [gameC1]
        from rfl]
  rw [show ([1, 2].map (fun i => (⟨i, 1500, 0⟩ : CorePlayer)))
        = [(⟨1, 1500, 0⟩ : CorePlayer), ⟨2, 1500, 0⟩] from rfl]
  rw [eloLoop_C1]
  rw [show ((currentSeason dbC1.today dbC1.seasons).map (fun s => s.id)) = some 2 from rfl]
  norm_num [eloDecay]

/-- C1 counterexample: the stored history of `dbC1` lies in season 1 and
the active season 2 has `elo_decay = False`; the replay leaves player 1
with `season_best = 1500`, yet `update_elo` applies the boundary decay
anyway and returns `season_best = 0` — the value does not carry over even
though decay is disabled. -/
theorem update_elo_decays_despite_disabled_flag :
    ((currentSeason dbC1.today dbC1.seasons).bind (fun s => s.rules)).map
        (fun r => r.elo_decay) = some false ∧
    eloLoop dbC1.seasons [gameC1] none [⟨1, 1500, 0⟩, ⟨2, 1500, 0⟩] =
      .ok ([⟨1, 1500, 1500⟩, ⟨2, 1500, 1500⟩], some 1) ∧
    eloCore dbC1.today dbC1.games dbC1.seasons [1, 2] =
      .ok [⟨1, 1500, 0⟩, ⟨2, 1500, 0⟩] :=
  ⟨rfl, eloLoop_C1, eloCore_C1⟩

/-- Helper: inserting into a list splits it around the new element. -/
theorem insertK_split (key : α → ℤ) (x : α) (l : List α) :
    ∃ u v, insertK key x l = u ++ x :: v ∧ l = u ++ v := by
  induction l with
  | nil => exact ⟨[], [], rfl, rfl⟩
  | cons y ys ih =>
    by_cases h : key x ≤ key y
    · exact ⟨[], y :: ys, by simp [insertK, h], rfl⟩
    · obtain ⟨u, v, h1, h2⟩ := ih
      exact ⟨y :: u, v, by simp [insertK, h, h1], by simp [h2]⟩

/-- Helper: membership through an insertion. -/
theorem insertK_mem (key : α → ℤ) (x b : α) (l : List α) :
    b ∈ insertK key x l ↔ b = x ∨ b ∈ l := by
  obtain ⟨u, v, h1, h2⟩ := insertK_split key x l
  subst h2
  rw [h1]
  simp [List.mem_append, List.mem_cons]
  tauto

/-- Helper: insertion preserves sortedness by the key. -/
theorem insertK_sorted (key : α → ℤ) (x : α) (l : List α)
    (h : l.Pairwise (fun a b => key a ≤ key b)) :
    (insertK key x l).Pairwise (fun a b => key a ≤ key b) := by
  induction l with
  | nil => simp [insertK]
  | cons y ys ih =>
    rcases List.pairwise_cons.mp h with ⟨hy, hys⟩
    by_cases hxy : key x ≤ key y
    · rw [show insertK key x (y :: ys) = x :: y :: ys by simp [insertK, hxy]]
      refine List.pairwise_cons.mpr ⟨?_, h⟩
      intro b hb
      rcases List.mem_cons.mp hb with rfl | hb
      · exact hxy
      · exact le_trans hxy (hy b hb)
    · rw [show insertK key x (y :: ys) = y :: insertK key x ys by simp [insertK, hxy]]
      refine List.pairwise_cons.mpr ⟨?_, ih hys⟩
      intro b hb
      rcases (insertK_mem key x b ys).mp hb with rfl | hb
      · exact le_of_lt (lt_of_not_le hxy)
      · exact hy b hb

/-- Helper: the stable sort produces a key-sorted list. -/
theorem sortK_sorted (key : α → ℤ) (l : List α) :
    (sortK key l).Pairwise (fun a b => key a ≤ key b) := by
  induction l with
  | nil => simp [sortK]
  | cons x xs ih => exact insertK_sorted key x (sortK key xs) ih

/-- Helper: inserting into a sorted list commutes with removing a marked
element. -/
theorem insertK_mid (key : α → ℤ) (a g : α) (u v : List α)
    (hs : (u ++ g :: v).Pairwise (fun x y => key x ≤ key y)) :
    ∃ u' v', insertK key a (u ++ g :: v) = u' ++ g :: v' ∧
             insertK key a (u ++ v) = u' ++ v' := by
  induction u with
  | nil =>
    by_cases h : key a ≤ key g
    · refine ⟨[a], v, by simp [insertK, h], ?_⟩
      cases v with
      | nil => simp [insertK]
      | cons w ws =>
        have hgw : key g ≤ key w :=
          (List.pairwise_cons.mp hs).1 w (by simp)
        simp [insertK, le_trans h hgw]
    · exact ⟨[], insertK key a v, by simp [insertK, h], rfl⟩
  | cons b u' ihu =>
    by_cases h : key a ≤ key b
    · exact ⟨a :: b :: u', v, by simp [insertK, h], by simp [insertK, h]⟩
    · obtain ⟨u2, v2, h1, h2⟩ := ihu (List.pairwise_cons.mp hs).2
      exact ⟨b :: u2, v2, by simp [insertK, h, h1], by simp [insertK, h, h2]⟩

/-- Helper: sorting a list with a marked element splits stably around
it. -/
theorem sortK_extract (key : α → ℤ) (g : α) (X Y : List α) :
    ∃ u v, sortK key (X ++ g :: Y) = u ++ g :: v ∧ sortK key (X ++ Y) = u ++ v := by
  induction X with
  | nil =>
    obtain ⟨u, v, h1, h2⟩ := insertK_split key g (sortK key Y)
    exact ⟨u, v, by simpa [sortK] using h1, by simpa using h2⟩
  | cons b X' ih =>
    obtain ⟨u, v, h1, h2⟩ := ih
    have hs : (u ++ g :: v).Pairwise (fun x y => key x ≤ key y) := by
      rw [← h1]; exact sortK_sorted key (X' ++ g :: Y)
    obtain ⟨u2, v2, hh1, hh2⟩ := insertK_mid key b g u v hs
    refine ⟨u2, v2, ?_, ?_⟩
    · show insertK key b (sortK key (X' ++ g :: Y)) = u2 ++ g :: v2
      rw [h1, hh1]
    · show insertK key b (sortK key (X' ++ Y)) = u2 ++ v2
      rw [h2, hh2]

/-- Helper: a game the `can_score` guard rejects is a no-op of the Elo
replay loop, wherever it sits in the replay order. -/
theorem eloLoop_skip (seasons : List Season) (g : Game)
    (hg : canScore seasons g = .ok false) :
    ∀ (u v : List Game) (cursor : Option SeasonId) (ps : List CorePlayer),
      eloLoop seasons (u ++ g :: v) cursor ps = eloLoop seasons (u ++ v) cursor ps := by
  intro u
  induction u with
  | nil =>
    intro v cursor ps
    simp only [List.nil_append, eloLoop, hg]
  | cons a u' ih =>
    intro v cursor ps
    simp only [List.cons_append, eloLoop]
    cases canScore seasons a with
    | error e => rfl
    | ok b =>
      cases b
      · exact ih v cursor ps
      · cases cursor with
        | none =>
          simp only []
          cases eloGameStep a ps with
          | error e => rfl
          | ok ps3 => exact ih v a.season ps3
        | some c =>
          by_cases hc : a.season ≠ none ∧ a.season ≠ some c
          · simp only [if_pos hc]
            cases eloGameStep a (eloDecay ps) with
            | error e => rfl
            | ok ps3 => exact ih v a.season ps3
          · simp only [if_neg hc]
            cases eloGameStep a ps with
            | error e => rfl
            | ok ps3 => exact ih v (some c) ps3

/-- C8 amended, Elo side: removing a match that fails `can_score` leaves
the full-history Elo recomputation unchanged — such a match contributes
nothing to player ratings. -/
theorem eloCore_skips_unscorable (today : ℤ) (A B : List Game)
    (seasons : List Season) (ids : List PlayerId) (g : Game)
    (hg : canScore seasons g = .ok false) :
    eloCore today (A ++ g :: B) seasons ids = eloCore today (A ++ B) seasons ids := by
  unfold eloCore
  rw [List.filter_append, List.filter_append, List.filter_cons]
  by_cases hst : (g.state == 3) = true
  · rw [if_pos hst]
    obtain ⟨u, v, h1, h2⟩ := sortK_extract (fun g => g.date)
      g (A.filter (fun g => g.state == 3)) (B.filter (fun g => g.state == 3))
    rw [h1, h2, eloLoop_skip seasons g hg]
  · rw [if_neg hst]

/-- Witness for `eloCore_skips_unscorable` on the concrete unscorable
game `gameC8`. -/
theorem eloCore_skips_unscorable_witness :
    eloCore 0 ([] ++ gameC8 :: []) [seasonGP] [] = eloCore 0 ([] ++ []) [seasonGP] [] :=
  eloCore_skips_unscorable 0 [] [] [seasonGP] [] gameC8 rfl

/-- Helper: a member of the candidate list of `find_or_create` is a
matching stored team at its recorded position. -/
theorem candidate_spec (teams : List Team) (season : Option SeasonId)
    (pids : List PlayerId) (i : Nat) (t : Team)
    (h : (i, t) ∈ teams.enum.filter (fun it => teamMatches season pids it.2)) :
    teams[i]? = some t ∧ teamMatches season pids t = true := by
  rcases List.mem_filter.mp h with ⟨hmem, hpred⟩
  exact ⟨List.mk_mem_enum_iff_getElem?.mp hmem, hpred⟩

/-- Helper: a matching stored team appears in the candidate list. -/
theorem candidate_of_mem (teams : List Team) (season : Option SeasonId)
    (pids : List PlayerId) (t : Team) (ht : t ∈ teams)
    (hp : teamMatches season pids t = true) :
    ∃ i, (i, t) ∈ teams.enum.filter (fun it => teamMatches season pids it.2) := by
  obtain ⟨i, hi⟩ := List.mem_iff_getElem?.mp ht
  exact ⟨i, List.mem_filter.mpr ⟨List.mk_mem_enum_iff_getElem?.mpr hi, hp⟩⟩

/-- C5 amended: `find_or_create` returns the position of an existing
team of the season exactly when some stored team's member set contains
every requested player (a superset match); the returned team is such a
match and is non-virtual whenever a non-virtual match exists.  Only when
no team matches is a new virtual team appended, named by concatenating
the member names, with exactly the requested players as members. -/
theorem find_or_create_characterization (teams : List Team)
    (season : Option SeasonId) (members : List (PlayerId × String)) :
    ((∃ t ∈ teams, teamMatches season (members.map (fun m => m.1)) t = true) →
      ∃ i, ∃ hi : i < teams.length,
        find_or_create teams season members = (i, teams) ∧
        teamMatches season (members.map (fun m => m.1)) (teams.get ⟨i, hi⟩) = true ∧
        ((∃ t ∈ teams, teamMatches season (members.map (fun m => m.1)) t = true ∧
            t.virtual = false) →
          (teams.get ⟨i, hi⟩).virtual = false)) ∧
    ((¬ ∃ t ∈ teams, teamMatches season (members.map (fun m => m.1)) t = true) →
      find_or_create teams season members =
        (teams.length,
         teams ++ [{ name := String.join (members.map (fun m => m.2)),
                     members := (members.map (fun m => m.1)).map
                       (fun pid => { player := pid, backup := false }),
                     season := season, elo := 1500, season_best := 0,
                     virtual := true }])) := by
  constructor
  · intro hex
    cases hfind : (teams.enum.filter
        (fun it => teamMatches season (members.map (fun m => m.1)) it.2)).find?
        (fun it => !it.2.virtual) with
    | some it =>
      obtain ⟨i, t⟩ := it
      have hmem := List.mem_of_find?_eq_some hfind
      have hps := List.find?_some hfind
      obtain ⟨hget, hpred⟩ := candidate_spec teams season _ i t hmem
      obtain ⟨hlt, hgeteq⟩ := List.getElem?_eq_some.mp hget
      refine ⟨i, hlt, ?_, ?_, fun _ => ?_⟩
      · simp only [find_or_create, hfind]
      · rw [List.get_eq_getElem, hgeteq]; exact hpred
      · rw [List.get_eq_getElem, hgeteq]
        simpa using hps
    | none =>
      cases hcand : teams.enum.filter
          (fun it => teamMatches season (members.map (fun m => m.1)) it.2) with
      | nil =>
        exfalso
        obtain ⟨t, ht, hp⟩ := hex
        obtain ⟨i, hi⟩ := candidate_of_mem teams season _ t ht hp
        rw [hcand] at hi
        simp at hi
      | cons it rest =>
        obtain ⟨i, t⟩ := it
        have hmem : (i, t) ∈ teams.enum.filter
            (fun it => teamMatches season (members.map (fun m => m.1)) it.2) := by
          rw [hcand]; simp
        obtain ⟨hget, hpred⟩ := candidate_spec teams season _ i t hmem
        obtain ⟨hlt, hgeteq⟩ := List.getElem?_eq_some.mp hget
        refine ⟨i, hlt, ?_, ?_, ?_⟩
        · have hfind2 := hfind
          rw [hcand] at hfind2
          simp only [find_or_create, hcand, hfind2]
        · rw [List.get_eq_getElem, hgeteq]; exact hpred
        · intro hvx
          exfalso
          obtain ⟨t2, ht2, hp2, hv2⟩ := hvx
          obtain ⟨i2, hi2⟩ := candidate_of_mem teams season _ t2 ht2 hp2
          have := List.find?_eq_none.mp hfind (i2, t2) hi2
          simp [hv2] at this
  · intro hnex
    have hcand : teams.enum.filter
        (fun it => teamMatches season (members.map (fun m => m.1)) it.2) = [] := by
      rw [List.filter_eq_nil_iff]
      intro it hit hp
      obtain ⟨i, t⟩ := it
      apply hnex
      have hget := List.mk_mem_enum_iff_getElem?.mp hit
      exact ⟨t, List.getElem?_mem hget, hp⟩
    have hfind : (teams.enum.filter
        (fun it => teamMatches season (members.map (fun m => m.1)) it.2)).find?
        (fun it => !it.2.virtual) = none := by
      rw [hcand]; rfl
    simp only [find_or_create, hfind, hcand]
    rfl

/-- Witness for `find_or_create_characterization`: the superset branch on
the concrete store `[teamAB]` with query player 1, and the creation
branch on the empty store. -/
theorem find_or_create_characterization_witness :
    (∃ i, ∃ hi : i < [teamAB].length,
      find_or_create [teamAB] (some 1) [(1, "A")] = (i, [teamAB]) ∧
      teamMatches (some 1) [1] (([teamAB] : List Team).get ⟨i, hi⟩) = true ∧
      ((∃ t ∈ [teamAB], teamMatches (some 1) [1] t = true ∧ t.virtual = false) →
        (([teamAB] : List Team).get ⟨i, hi⟩).virtual = false)) ∧
    find_or_create [] (some 1) [(1, "A")] =
      (0, [{ name := "A", members := [{ player := 1, backup := false }],
             season := some 1, elo := 1500, season_best := 0, virtual := true }]) := by
  constructor
  · exact (find_or_create_characterization [teamAB] (some 1) [(1, "A")]).1
      ⟨teamAB, by simp, by decide⟩
  · have h := (find_or_create_characterization [] (some 1) [(1, "A")]).2
      (by rintro ⟨t, ht, hp⟩; simp at ht)
    simpa using h

/-- Helper: `calculate_team_elo` succeeds on a nonempty rating list with
the truncated mean. -/
theorem cte_ok (l : List ℝ) (h : l ≠ []) :
    calculate_team_elo l = .ok (team_elo_val l) := by
  unfold calculate_team_elo team_elo_val
  rw [if_neg (by simpa using h)]

/-- Helper: the truncated mean is permutation invariant. -/
theorem team_elo_val_perm (l l2 : List ℝ) (h : l.Perm l2) :
    team_elo_val l = team_elo_val l2 := by
  unfold team_elo_val
  rw [h.sum_eq, h.length_eq]

/-- Helper: every enumerated combination is a sublist. -/
theorem combos_sublist : ∀ (l : List α) (n : Nat) (c : List α),
    c ∈ combos n l → c.Sublist l := by
  intro l
  induction l with
  | nil =>
    intro n c hc
    cases n with
    | zero => simp only [combos, List.mem_singleton] at hc; simp [hc]
    | succ m => simp [combos] at hc
  | cons x xs ih =>
    intro n c hc
    cases n with
    | zero => simp only [combos, List.mem_singleton] at hc; simp [hc]
    | succ m =>
      simp only [combos, List.mem_append, List.mem_map] at hc
      rcases hc with ⟨c', hc', rfl⟩ | hc
      · exact (ih m c' hc').cons₂ x
      · exact (ih (m + 1) c hc).cons x

/-- Helper: every enumerated combination has the requested size. -/
theorem combos_length : ∀ (l : List α) (n : Nat) (c : List α),
    c ∈ combos n l → c.length = n := by
  intro l
  induction l with
  | nil =>
    intro n c hc
    cases n with
    | zero => simp only [combos, List.mem_singleton] at hc; simp [hc]
    | succ m => simp [combos] at hc
  | cons x xs ih =>
    intro n c hc
    cases n with
    | zero => simp only [combos, List.mem_singleton] at hc; simp [hc]
    | succ m =>
      simp only [combos, List.mem_append, List.mem_map] at hc
      rcases hc with ⟨c', hc', rfl⟩ | hc
      · simp [ih m c' hc']
      · exact ih (m + 1) c hc

/-- Helper: the enumeration is complete — every sublist of the requested
size appears. -/
theorem combos_complete : ∀ (l : List α) (c : List α), c.Sublist l →
    c ∈ combos c.length l := by
  intro l
  induction l with
  | nil =>
    intro c hc
    rw [List.sublist_nil.mp hc]
    simp [combos]
  | cons x xs ih =>
    intro c hc
    rcases List.sublist_cons_iff.mp hc with h | ⟨r, rfl, h⟩
    · cases hn : c.length with
      | zero =>
        rw [List.length_eq_zero.mp hn]
        simp [combos]
      | succ m =>
        have := ih c h
        rw [hn] at this
        simp only [combos, List.mem_append]
        exact Or.inr this
    · simp only [List.length_cons, combos, List.mem_append, List.mem_map]
      exact Or.inl ⟨r, ih r h, rfl⟩

/-- Helper: filtering the store by membership in a duplicate-free
sublist recovers the sublist. -/
theorem filter_mem_of_sublist (ps t : List Player)
    (hsub : t.Sublist ps) (hnd : (ps.map (fun p => p.id)).Nodup) :
    ps.filter (fun p => t.any (fun q => q.id = p.id)) = t := by
  induction hsub with
  | slnil => rfl
  | @cons t' ps' a h ih =>
    have hnd' := hnd
    rw [List.map_cons, List.nodup_cons] at hnd'
    obtain ⟨ha, hps'⟩ := hnd'
    rw [List.filter_cons]
    have hfa : (t'.any (fun q => q.id = a.id)) = false := by
      rw [List.any_eq_false]
      intro q hq
      simp only [decide_eq_true_eq]
      intro hqa
      exact ha (hqa ▸ List.mem_map_of_mem (fun p => p.id) (h.subset hq))
    rw [hfa]
    simpa using ih hps'
  | @cons₂ t' ps' a h ih =>
    have hnd' := hnd
    rw [List.map_cons, List.nodup_cons] at hnd'
    obtain ⟨ha, hps'⟩ := hnd'
    rw [List.filter_cons]
    have hta : ((a :: t').any (fun q => q.id = a.id)) = true := by simp
    rw [hta]
    simp only [if_true]
    have hcongr : ∀ p ∈ ps',
        ((a :: t').any (fun q => q.id = p.id)) = (t'.any (fun q => q.id = p.id)) := by
      intro p hp
      simp only [List.any_cons]
      have hne : (decide (a.id = p.id)) = false := by
        simp only [decide_eq_false_iff_not]
        intro he
        exact ha (he ▸ List.mem_map_of_mem (fun p => p.id) hp)
      rw [hne]
      simp
    rw [List.filter_congr hcongr, ih hps']

/-- Helper: a duplicate-free sublist together with the complement filter
of `create_equal_teams` is a permutation of the player set. -/
theorem partition_perm (ps t : List Player) (hsub : t.Sublist ps)
    (hnd : (ps.map (fun p => p.id)).Nodup) :
    (t ++ ps.filter (fun p => ¬ t.any (fun q => q.id = p.id))).Perm ps := by
  have hfilters : ps.filter (fun p => ¬ t.any (fun q => q.id = p.id))
      = ps.filter (fun p => !(t.any (fun q => q.id = p.id))) :=
    List.filter_congr (by
      intro p hp
      cases h : t.any (fun q => decide (q.id = p.id)) <;> simp [h])
  have hperm := List.filter_append_perm (fun p => t.any (fun q => q.id = p.id)) ps
  rw [filter_mem_of_sublist ps t hsub hnd] at hperm
  rw [hfilters]
  exact hperm

/-- Helper: evaluation of the gap enumeration of `create_equal_teams`
when every side is nonempty. -/
theorem mapM_gapEntry (players : List Player) (cs : List (List Player))
    (h : ∀ c ∈ cs, c ≠ [] ∧
      players.filter (fun p => ¬ c.any (fun q => q.id = p.id)) ≠ []) :
    (cs.mapM (fun team1 => do
      let team2 := players.filter (fun p => ¬ team1.any (fun q => q.id = p.id))
      let elo1 ← calculate_team_elo (team1.map (fun p => p.elo))
      let elo2 ← calculate_team_elo (team2.map (fun p => p.elo))
      pure (|elo1 - elo2|, team1, team2))
      : Except String (List (ℤ × List Player × List Player)))
      = .ok (cs.map (gapEntry players)) := by
  induction cs with
  | nil => rfl
  | cons c rest ih =>
    obtain ⟨h1, h2⟩ := h c (by simp)
    rw [List.mapM_cons]
    have e1 := cte_ok (c.map (fun p => p.elo)) (by simpa using h1)
    have e2 := cte_ok ((players.filter
        (fun p => ¬ c.any (fun q => q.id = p.id))).map (fun p => p.elo))
      (by simpa using h2)
    rw [show ((do
      let team2 := players.filter (fun p => ¬ c.any (fun q => q.id = p.id))
      let elo1 ← calculate_team_elo (c.map (fun p => p.elo))
      let elo2 ← calculate_team_elo (team2.map (fun p => p.elo))
      pure (|elo1 - elo2|, c, team2)) : Except String (ℤ × List Player × List Player))
      = .ok (gapEntry players c) by
        rw [show ((do
          let team2 := players.filter (fun p => ¬ c.any (fun q => q.id = p.id))
          let elo1 ← calculate_team_elo (c.map (fun p => p.elo))
          let elo2 ← calculate_team_elo (team2.map (fun p => p.elo))
          pure (|elo1 - elo2|, c, team2)) : Except String (ℤ × List Player × List Player))
          = (calculate_team_elo (c.map (fun p => p.elo)) >>= fun elo1 =>
             calculate_team_elo ((players.filter
               (fun p => ¬ c.any (fun q => q.id = p.id))).map (fun p => p.elo)) >>= fun elo2 =>
             pure (|elo1 - elo2|, c, players.filter
               (fun p => ¬ c.any (fun q => q.id = p.id)))) from rfl]
        rw [e1, except_bind_ok, e2, except_bind_ok]
        rfl]
    rw [except_bind_ok, ih (fun c2 hc2 => h c2 (List.mem_cons_of_mem c hc2)),
      except_bind_ok]
    rfl

/-- Helper: the head of the stable sort is the first minimum of the
original list: it has a minimal key, and every earlier element of the
original list has a strictly larger key. -/
theorem sortK_head_min (key : α → ℤ) (l : List α) (hl : l ≠ []) :
    ∃ i, ∃ hi : i < l.length, (sortK key l).head? = some (l.get ⟨i, hi⟩) ∧
      (∀ j, ∀ hj : j < l.length, j < i → key (l.get ⟨i, hi⟩) < key (l.get ⟨j, hj⟩)) ∧
      (∀ x ∈ l, key (l.get ⟨i, hi⟩) ≤ key x) := by
  induction l with
  | nil => exact absurd rfl hl
  | cons a rest ih =>
    cases rest with
    | nil =>
      refine ⟨0, by simp, by simp [sortK, insertK], ?_, ?_⟩
      · intro j hj hji; omega
      · intro x hx
        simp only [List.mem_singleton] at hx
        simp [hx]
    | cons b rest2 =>
      obtain ⟨i', hi', hhead, hprior, hmin⟩ := ih (by simp)
      set m := (b :: rest2).get ⟨i', hi'⟩ with hm
      obtain ⟨tail, htail⟩ : ∃ tail, sortK key (b :: rest2) = m :: tail := by
        cases hs : sortK key (b :: rest2) with
        | nil => rw [hs] at hhead; simp at hhead
        | cons m0 tl =>
          rw [hs] at hhead
          simp only [List.head?_cons, Option.some.injEq] at hhead
          exact ⟨tl, by rw [hhead]⟩
      by_cases hcmp : key a ≤ key m
      · refine ⟨0, by simp, ?_, ?_, ?_⟩
        · show (insertK key a (sortK key (b :: rest2))).head? = some a
          rw [htail]
          simp only [insertK]
          rw [if_pos hcmp]
          rfl
        · intro j hj hji; omega
        · intro x hx
          rcases List.mem_cons.mp hx with rfl | hx
          · exact le_refl _
          · exact le_trans hcmp (hmin x hx)
      · have hisucc : i' + 1 < (a :: b :: rest2).length := by
          simpa using Nat.succ_lt_succ hi'
        have hgets : (a :: b :: rest2).get ⟨i' + 1, hisucc⟩ = m := rfl
        refine ⟨i' + 1, hisucc, ?_, ?_, ?_⟩
        · show (insertK key a (sortK key (b :: rest2))).head?
            = some ((a :: b :: rest2).get ⟨i' + 1, hisucc⟩)
          rw [htail, hgets]
          simp only [insertK]
          rw [if_neg hcmp]
          rfl
        · intro j hj hji
          rw [hgets]
          cases j with
          | zero =>
            show key m < key a
            exact lt_of_not_le hcmp
          | succ j' =>
            exact hprior j' (by simpa using Nat.lt_of_succ_lt_succ hj) (by omega)
        · intro x hx
          rw [hgets]
          rcases List.mem_cons.mp hx with rfl | hx
          · exact le_of_lt (lt_of_not_le hcmp)
          · exact hmin x hx

/-- C3: on a duplicate-free set of `2n` players (`n ≥ 1`),
`create_equal_teams` succeeds and returns two disjoint sides of size `n`
partitioning the set, whose gap of truncated mean ratings is the stated
absolute difference, is minimal over all size-`n`/size-`n` partitions,
and belongs to the first combination attaining the minimum in the
enumeration order (every earlier combination has a strictly larger
gap). -/
theorem create_equal_teams_spec (ps : List Player) (n : Nat) (hn : 0 < n)
    (hlen : ps.length = 2 * n) (hnd : (ps.map (fun p => p.id)).Nodup) :
    ∃ g t1 t2, create_equal_teams ps = .ok (g, t1, t2) ∧
      t1.length = n ∧ t2.length = n ∧ (∀ p ∈ t1, p ∉ t2) ∧ (t1 ++ t2).Perm ps ∧
      g = |team_elo_val (t1.map (fun p => p.elo))
            - team_elo_val (t2.map (fun p => p.elo))| ∧
      (∀ A B : List Player, (A ++ B).Perm ps → A.length = n →
        g ≤ |team_elo_val (A.map (fun p => p.elo))
              - team_elo_val (B.map (fun p => p.elo))|) ∧
      (∃ i, ∃ hi : i < (combos n ps).length, (combos n ps).get ⟨i, hi⟩ = t1 ∧
        ∀ j, ∀ hj : j < (combos n ps).length, j < i →
          g < (gapEntry ps ((combos n ps).get ⟨j, hj⟩)).1) := by
  have hhalf : ps.length / 2 = n := by omega
  have hsides : ∀ c ∈ combos n ps, c ≠ [] ∧
      ps.filter (fun p => ¬ c.any (fun q => q.id = p.id)) ≠ [] := by
    intro c hc
    have hsub := combos_sublist ps n c hc
    have hlenc := combos_length ps n c hc
    refine ⟨?_, ?_⟩
    · intro h; rw [h] at hlenc; simp at hlenc; omega
    · intro h
      have hperm := partition_perm ps c hsub hnd
      rw [h] at hperm
      have hle := hperm.length_eq
      simp at hle
      omega
  have hmapM := mapM_gapEntry ps (combos n ps) hsides
  have hbody : create_equal_teams ps =
      match sortK (fun x => x.1) ((combos n ps).map (gapEntry ps)) with
      | [] => .error "IndexError"
      | ideal :: _ => .ok ideal := by
    simp only [create_equal_teams, hhalf]
    rw [hmapM, except_bind_ok]
  have hc0 : ps.take n ∈ combos n ps := by
    have h1 : (ps.take n).Sublist ps := List.take_sublist n ps
    have h2 : (ps.take n).length = n := by rw [List.length_take]; omega
    have h3 := combos_complete ps (ps.take n) h1
    rw [h2] at h3
    exact h3
  have hLne : (combos n ps).map (gapEntry ps) ≠ [] := by
    intro h
    rw [List.map_eq_nil_iff] at h
    rw [h] at hc0
    simp at hc0
  obtain ⟨i, hi, hhead, hprior, hmin⟩ :=
    sortK_head_min (fun x => x.1) ((combos n ps).map (gapEntry ps)) hLne
  have hiC : i < (combos n ps).length := by
    simpa using hi
  have hgetL : ((combos n ps).map (gapEntry ps)).get ⟨i, hi⟩
      = gapEntry ps ((combos n ps).get ⟨i, hiC⟩) := by
    simp [List.get_eq_getElem, List.getElem_map]
  set c1 := (combos n ps).get ⟨i, hiC⟩ with hc1
  have hmem1 : c1 ∈ combos n ps := List.get_mem (combos n ps) i hiC
  have hsub1 := combos_sublist ps n c1 hmem1
  have hlen1 := combos_length ps n c1 hmem1
  set t2 := ps.filter (fun p => ¬ c1.any (fun q => q.id = p.id)) with ht2
  have hperm1 : (c1 ++ t2).Perm ps := partition_perm ps c1 hsub1 hnd
  have hok : create_equal_teams ps = .ok (gapEntry ps c1) := by
    rw [hbody]
    cases hs : sortK (fun x => x.1) ((combos n ps).map (gapEntry ps)) with
    | nil =>
      rw [hs] at hhead
      simp at hhead
    | cons e tl =>
      rw [hs] at hhead
      simp only [List.head?_cons, Option.some.injEq] at hhead
      show Except.ok e = _
      rw [hhead, hgetL]
  refine ⟨(gapEntry ps c1).1, c1, t2, ?_, hlen1, ?_, ?_, hperm1, rfl, ?_, ?_⟩
  · rw [hok]
    rfl
  · have hle := hperm1.length_eq
    rw [List.length_append, hlen1, hlen] at hle
    omega
  · intro p hp hp2
    rw [ht2, List.mem_filter] at hp2
    have := hp2.2
    simp only [decide_eq_true_eq] at this
    exact this (List.any_eq_true.mpr ⟨p, hp, by simp⟩)
  · intro A B hAB hA
    obtain ⟨A2, hA2p, hA2s⟩ :=
      List.exists_perm_sublist (List.sublist_append_left A B) hAB
    have hA2len : A2.length = n := by rw [hA2p.length_eq, hA]
    have hA2mem : A2 ∈ combos n ps := by
      have := combos_complete ps A2 hA2s
      rw [hA2len] at this
      exact this
    have hkey := hmin (gapEntry ps A2)
      (List.mem_map_of_mem (gapEntry ps) hA2mem)
    rw [hgetL] at hkey
    set comp := ps.filter (fun p => ¬ A2.any (fun q => q.id = p.id)) with hcomp
    have hpermA2 : (A2 ++ comp).Perm ps := partition_perm ps A2 hA2s hnd
    have hBcomp : comp.Perm B := by
      have h1 : (A ++ comp).Perm (A ++ B) :=
        ((hA2p.append_right comp).symm.trans hpermA2).trans hAB.symm
      exact (List.perm_append_left_iff A).mp h1
    have hteA : team_elo_val (A2.map (fun p => p.elo))
        = team_elo_val (A.map (fun p => p.elo)) :=
      team_elo_val_perm _ _ (hA2p.map (fun p => p.elo))
    have hteB : team_elo_val (comp.map (fun p => p.elo))
        = team_elo_val (B.map (fun p => p.elo)) :=
      team_elo_val_perm _ _ (hBcomp.map (fun p => p.elo))
    calc (gapEntry ps c1).1 ≤ (gapEntry ps A2).1 := hkey
      _ = |team_elo_val (A.map (fun p => p.elo))
            - team_elo_val (B.map (fun p => p.elo))| := by
        show (|team_elo_val (A2.map (fun p => p.elo))
          - team_elo_val (comp.map (fun p => p.elo))|) = _
        rw [hteA, hteB]
  · refine ⟨i, hiC, rfl, ?_⟩
    intro j hj hji
    have hjL : j < ((combos n ps).map (gapEntry ps)).length := by simpa using hj
    have := hprior j hjL hji
    rw [hgetL] at this
    have hgetLj : ((combos n ps).map (gapEntry ps)).get ⟨j, hjL⟩
        = gapEntry ps ((combos n ps).get ⟨j, hj⟩) := by
      simp [List.get_eq_getElem, List.getElem_map]
    rw [hgetLj] at this
    exact this

/-- Witness for `create_equal_teams_spec`: the four players of the spec
scenario (ratings 1000, 1000, 1000, 3000) with `n = 2`. -/
theorem create_equal_teams_spec_witness :
    ∃ g t1 t2, create_equal_teams [plW1, plW2, plW3, plW4] = .ok (g, t1, t2) ∧
      t1.length = 2 ∧ t2.length = 2 ∧ (∀ p ∈ t1, p ∉ t2) ∧
      (t1 ++ t2).Perm [plW1, plW2, plW3, plW4] ∧
      g = |team_elo_val (t1.map (fun p => p.elo))
            - team_elo_val (t2.map (fun p => p.elo))| ∧
      (∀ A B : List Player, (A ++ B).Perm [plW1, plW2, plW3, plW4] → A.length = 2 →
        g ≤ |team_elo_val (A.map (fun p => p.elo))
              - team_elo_val (B.map (fun p => p.elo))|) ∧
      (∃ i, ∃ hi : i < (combos 2 [plW1, plW2, plW3, plW4]).length,
        (combos 2 [plW1, plW2, plW3, plW4]).get ⟨i, hi⟩ = t1 ∧
        ∀ j, ∀ hj : j < (combos 2 [plW1, plW2, plW3, plW4]).length, j < i →
          g < (gapEntry [plW1, plW2, plW3, plW4]
                ((combos 2 [plW1, plW2, plW3, plW4]).get ⟨j, hj⟩)).1) := by
  refine create_equal_teams_spec [plW1, plW2, plW3, plW4] 2 (by norm_num) (by simp) ?_
  simp [plW1, plW2, plW3, plW4]

/-! ## Idempotence of the recompute pipeline (C2) -/

/-- Helper: inversion of a successful `Except` bind. -/
theorem except_bind_inv {ε α β : Type} {x : Except ε α} {f : α → Except ε β} {r : β}
    (h : x >>= f = .ok r) : ∃ a, x = .ok a ∧ f a = .ok r := by
  cases x with
  | error e => rw [except_bind_error] at h; exact Except.noConfusion h
  | ok a => rw [except_bind_ok] at h; exact ⟨a, rfl, h⟩

/-- Helper: inversion of two successful `Except` binds ending in `pure`. -/
theorem bind2_pure_inv {ε α β γ : Type} {x : Except ε α} {y : Except ε β}
    {k : α → β → γ} {r : γ}
    (h : (x >>= fun a => y >>= fun b => pure (k a b)) = .ok r) :
    ∃ a b, x = .ok a ∧ y = .ok b ∧ k a b = r := by
  obtain ⟨a, hx, h⟩ := except_bind_inv h
  obtain ⟨b, hy, h⟩ := except_bind_inv h
  exact ⟨a, b, hx, hy, Except.ok.inj h⟩

/-- Helper: a positional write leaves the columns it does not touch
unchanged. -/
theorem zipWith_proj {α β γ : Type} (f : α → β → α) (proj : α → γ)
    (hf : ∀ a b, proj (f a b) = proj a) :
    ∀ (l : List α) (bs : List β), bs.length = l.length →
      (List.zipWith f l bs).map proj = l.map proj := by
  intro l
  induction l with
  | nil => intro bs _; simp
  | cons a l ih =>
    intro bs hlen
    cases bs with
    | nil => exact absurd hlen (by simp)
    | cons b bs =>
      simp only [List.zipWith_cons_cons, List.map_cons, hf]
      rw [ih bs (by simpa using hlen)]

/-- Helper: a rowwise rewrite leaves the columns it does not touch
unchanged. -/
theorem map_proj {α γ : Type} (g : α → α) (proj : α → γ)
    (hg : ∀ a, proj (g a) = proj a) (l : List α) :
    (l.map g).map proj = l.map proj := by
  rw [List.map_map]
  exact List.map_congr_left (fun a _ => hg a)

/-- Helper: positional writes to disjoint column sets commute. -/
theorem zipWith_zipWith_comm {α β γ : Type} (f : α → β → α) (g : α → γ → α)
    (hfg : ∀ a b c, f (g a c) b = g (f a b) c) :
    ∀ (l : List α) (bs : List β) (cs : List γ),
      List.zipWith f (List.zipWith g l cs) bs =
        List.zipWith g (List.zipWith f l bs) cs := by
  intro l
  induction l with
  | nil => intro bs cs; simp
  | cons a l ih =>
    intro bs cs
    cases bs with
    | nil => simp
    | cons b bs =>
      cases cs with
      | nil => simp
      | cons c cs =>
        simp only [List.zipWith_cons_cons, hfg]
        rw [ih bs cs]

/-- Helper: a positional write and a rowwise rewrite of disjoint columns
commute. -/
theorem zipWith_map_comm {α β : Type} (f : α → β → α) (g : α → α)
    (hfg : ∀ a b, f (g a) b = g (f a b)) :
    ∀ (l : List α) (bs : List β),
      List.zipWith f (l.map g) bs = (List.zipWith f l bs).map g := by
  intro l
  induction l with
  | nil => intro bs; simp
  | cons a l ih =>
    intro bs
    cases bs with
    | nil => simp
    | cons b bs =>
      simp only [List.map_cons, List.zipWith_cons_cons, hfg]
      rw [ih bs]

/-- Helper: a positional write applied twice with the same payload equals
one application. -/
theorem zipWith_idem {α β : Type} (f : α → β → α)
    (hf : ∀ a b, f (f a b) b = f a b) :
    ∀ (l : List α) (bs : List β),
      List.zipWith f (List.zipWith f l bs) bs = List.zipWith f l bs := by
  intro l
  induction l with
  | nil => intro bs; simp
  | cons a l ih =>
    intro bs
    cases bs with
    | nil => simp
    | cons b bs =>
      simp only [List.zipWith_cons_cons, hf]
      rw [ih bs]

/-- Helper: a rowwise rewrite applied twice equals one application. -/
theorem map_idem {α : Type} (g : α → α) (hg : ∀ a, g (g a) = g a) (l : List α) :
    (l.map g).map g = l.map g := by
  rw [List.map_map]
  exact List.map_congr_left (fun a _ => hg a)

/-- Helper: writing back into a position the value already stored there
changes nothing. -/
theorem set_get_self {α : Type} (l : List α) (i : Nat) (x : α)
    (h : l.get? i = some x) : l.set i x = l := by
  induction l generalizing i with
  | nil => exact Option.noConfusion h
  | cons a l ih =>
    cases i with
    | zero =>
      injection h with h
      show x :: l = a :: l
      rw [h]
    | succ i =>
      show a :: l.set i x = a :: l
      rw [ih i h]

/-- Helper: the Elo write-back does not touch the id column. -/
theorem writeElo_map_id (ps : List Player) (cs : List CorePlayer)
    (h : cs.length = ps.length) :
    (writeElo ps cs).map (fun p => p.id) = ps.map (fun p => p.id) :=
  zipWith_proj
    (fun (p : Player) (c : CorePlayer) =>
      { p with elo := c.elo, season_best := c.season_best })
    (fun p => p.id) (fun _ _ => rfl) ps cs h

/-- Helper: the rank write-back does not touch the id column. -/
theorem writeRanks_map_id (ps : List Player) (rss : List (Option Nat))
    (h : rss.length = ps.length) :
    (writeRanks ps rss).map (fun p => p.id) = ps.map (fun p => p.id) :=
  zipWith_proj (fun (p : Player) (r : Option Nat) => { p with rank := r }) (fun p => p.id)
    (fun _ _ => rfl) ps rss h

/-- Helper: the score write-back does not touch the id column. -/
theorem writeScore_map_id (ps : List Player) (acc : List (PlayerId × ℝ)) :
    (writeScore ps acc).map (fun p => p.id) = ps.map (fun p => p.id) :=
  map_proj _ _ (fun a => by cases h : acc.find? (fun x => x.1 == a.id) <;> simp [h]) ps

/-- Helper: the score write-back does not touch the columns the Elo and
score passes read. -/
theorem writeScore_map_toCore (ps : List Player) (acc : List (PlayerId × ℝ)) :
    (writeScore ps acc).map toCore = ps.map toCore :=
  map_proj _ _ (fun a => by
    cases h : acc.find? (fun x => x.1 == a.id) <;> simp [toCore, h]) ps

/-- Helper: the rank write-back does not touch the columns the Elo and
score passes read. -/
theorem writeRanks_map_toCore (ps : List Player) (rss : List (Option Nat))
    (h : rss.length = ps.length) :
    (writeRanks ps rss).map toCore = ps.map toCore :=
  zipWith_proj (fun (p : Player) (r : Option Nat) => { p with rank := r }) toCore
    (fun _ _ => rfl) ps rss h

/-- Helper: the rank write-back does not touch the id and score columns
the rank pass reads. -/
theorem writeRanks_map_idScore (ps : List Player) (rss : List (Option Nat))
    (h : rss.length = ps.length) :
    (writeRanks ps rss).map (fun p => (p.id, p.score))
      = ps.map (fun p => (p.id, p.score)) :=
  zipWith_proj (fun (p : Player) (r : Option Nat) => { p with rank := r }) (fun p => (p.id, p.score))
    (fun _ _ => rfl) ps rss h

/-- Helper: the Elo and score write-backs commute (disjoint columns). -/
theorem writeElo_writeScore_comm (ps : List Player) (acc : List (PlayerId × ℝ))
    (cs : List CorePlayer) :
    writeElo (writeScore ps acc) cs = writeScore (writeElo ps cs) acc :=
  zipWith_map_comm _ _ (fun a b => by
    cases h : acc.find? (fun x => x.1 == a.id) <;> simp [h]) ps cs

/-- Helper: the Elo and rank write-backs commute (disjoint columns). -/
theorem writeElo_writeRanks_comm (ps : List Player) (rss : List (Option Nat))
    (cs : List CorePlayer) :
    writeElo (writeRanks ps rss) cs = writeRanks (writeElo ps cs) rss :=
  zipWith_zipWith_comm
    (fun (p : Player) (c : CorePlayer) =>
      { p with elo := c.elo, season_best := c.season_best })
    (fun (p : Player) (r : Option Nat) => { p with rank := r }) (fun _ _ _ => rfl) ps cs rss

/-- Helper: the score and rank write-backs commute (disjoint columns). -/
theorem writeScore_writeRanks_comm (ps : List Player) (acc : List (PlayerId × ℝ))
    (rss : List (Option Nat)) :
    writeScore (writeRanks ps rss) acc = writeRanks (writeScore ps acc) rss :=
  (zipWith_map_comm _ _ (fun a b => by
    cases h : acc.find? (fun x => x.1 == a.id) <;> simp [h]) ps rss).symm

/-- Helper: replaying the Elo write-back with the same rows is the
identity on an already written table. -/
theorem writeElo_twice (ps : List Player) (cs : List CorePlayer) :
    writeElo (writeElo ps cs) cs = writeElo ps cs :=
  zipWith_idem
    (fun (p : Player) (c : CorePlayer) =>
      { p with elo := c.elo, season_best := c.season_best })
    (fun _ _ => rfl) ps cs

/-- Helper: replaying the score write-back with the same assignment is
the identity on an already written table. -/
theorem writeScore_twice (ps : List Player) (acc : List (PlayerId × ℝ)) :
    writeScore (writeScore ps acc) acc = writeScore ps acc :=
  map_idem _ (fun a => by
    cases h : acc.find? (fun x => x.1 == a.id) <;> simp [h]) ps

/-- Helper: replaying the rank write-back with the same column is the
identity on an already written table. -/
theorem writeRanks_twice (ps : List Player) (rss : List (Option Nat)) :
    writeRanks (writeRanks ps rss) rss = writeRanks ps rss :=
  zipWith_idem (fun (p : Player) (r : Option Nat) => { p with rank := r }) (fun _ _ => rfl) ps rss

/-- Helper: the Elo loop on an empty game list. -/
theorem eloLoop_nil (seasons : List Season) (cursor : Option SeasonId)
    (ps : List CorePlayer) :
    eloLoop seasons [] cursor ps = .ok (ps, cursor) := rfl

/-- Helper: the Elo loop stops when `can_score` raises. -/
theorem eloLoop_cons_error (seasons : List Season) (g : Game) (rest : List Game)
    (cursor : Option SeasonId) (ps : List CorePlayer) (e : String)
    (h : canScore seasons g = .error e) :
    eloLoop seasons (g :: rest) cursor ps = .error (e, ps) := by
  simp only [eloLoop, h]

/-- Helper: the Elo loop skips a non-scorable game. -/
theorem eloLoop_cons_false (seasons : List Season) (g : Game) (rest : List Game)
    (cursor : Option SeasonId) (ps : List CorePlayer)
    (h : canScore seasons g = .ok false) :
    eloLoop seasons (g :: rest) cursor ps = eloLoop seasons rest cursor ps := by
  simp only [eloLoop, h]

/-- Helper: the Elo loop on a scorable game with no cursor yet. -/
theorem eloLoop_cons_none (seasons : List Season) (g : Game) (rest : List Game)
    (ps : List CorePlayer) (h : canScore seasons g = .ok true) :
    eloLoop seasons (g :: rest) none ps =
      match eloGameStep g ps with
      | .error e => .error (e, ps)
      | .ok ps3 => eloLoop seasons rest g.season ps3 := by
  simp only [eloLoop, h]

/-- Helper: the Elo loop on a scorable game at a season boundary. -/
theorem eloLoop_cons_decay (seasons : List Season) (g : Game) (rest : List Game)
    (c : SeasonId) (ps : List CorePlayer) (h : canScore seasons g = .ok true)
    (hc : g.season ≠ none ∧ g.season ≠ some c) :
    eloLoop seasons (g :: rest) (some c) ps =
      match eloGameStep g (eloDecay ps) with
      | .error e => .error (e, eloDecay ps)
      | .ok ps3 => eloLoop seasons rest g.season ps3 := by
  simp only [eloLoop, h, if_pos hc]

/-- Helper: the Elo loop on a scorable game inside the cursor's season. -/
theorem eloLoop_cons_stay (seasons : List Season) (g : Game) (rest : List Game)
    (c : SeasonId) (ps : List CorePlayer) (h : canScore seasons g = .ok true)
    (hc : ¬(g.season ≠ none ∧ g.season ≠ some c)) :
    eloLoop seasons (g :: rest) (some c) ps =
      match eloGameStep g ps with
      | .error e => .error (e, ps)
      | .ok ps3 => eloLoop seasons rest (some c) ps3 := by
  simp only [eloLoop, h, if_neg hc]

/-- Helper: the decay bookkeeping does not touch the id column. -/
theorem eloDecay_ids (ps : List CorePlayer) :
    (eloDecay ps).map (fun c => c.id) = ps.map (fun c => c.id) := by
  unfold eloDecay
  rw [List.map_map]
  rfl

/-- Helper: one Elo game step does not touch the id column. -/
theorem eloGameStep_ids (g : Game) (ps rlist : List CorePlayer)
    (h : eloGameStep g ps = .ok rlist) :
    rlist.map (fun c => c.id) = ps.map (fun c => c.id) := by
  unfold eloGameStep at h
  obtain ⟨t2p, t1p, hx, hy, hk⟩ := bind2_pure_inv h
  simp only [] at hk
  rw [← hk, List.map_map]
  apply List.map_congr_left
  intro a _
  by_cases h1 : (sidePlayers g 1).any (fun pid => pid == a.id) = true
  · simp [Function.comp, h1]
  · by_cases h2 : (sidePlayers g 2).any (fun pid => pid == a.id) = true
    · simp [Function.comp, h1, h2]
    · simp [Function.comp, h1, h2]

/-- Helper: the Elo replay loop does not touch the id column. -/
theorem eloLoop_ids (seasons : List Season) :
    ∀ (games : List Game) (cursor : Option SeasonId) (ps rlist : List CorePlayer)
      (cur2 : Option SeasonId),
      eloLoop seasons games cursor ps = .ok (rlist, cur2) →
      rlist.map (fun c => c.id) = ps.map (fun c => c.id) := by
  intro games
  induction games with
  | nil =>
    intro cursor ps rlist cur2 h
    rw [eloLoop_nil] at h
    injection h with h
    injection h with h1 h2
    rw [h1]
  | cons g rest ih =>
    intro cursor ps rlist cur2 h
    cases hcs : canScore seasons g with
    | error e =>
      rw [eloLoop_cons_error seasons g rest cursor ps e hcs] at h
      exact Except.noConfusion h
    | ok b =>
      cases b with
      | false =>
        rw [eloLoop_cons_false seasons g rest cursor ps hcs] at h
        exact ih cursor ps rlist cur2 h
      | true =>
        cases cursor with
        | none =>
          rw [eloLoop_cons_none seasons g rest ps hcs] at h
          cases hstep : eloGameStep g ps with
          | error e => rw [hstep] at h; exact Except.noConfusion h
          | ok ps3 =>
            rw [hstep] at h
            have h2 : eloLoop seasons rest g.season ps3 = .ok (rlist, cur2) := h
            rw [ih g.season ps3 rlist cur2 h2]
            exact eloGameStep_ids g ps ps3 hstep
        | some c =>
          by_cases hc : g.season ≠ none ∧ g.season ≠ some c
          · rw [eloLoop_cons_decay seasons g rest c ps hcs hc] at h
            cases hstep : eloGameStep g (eloDecay ps) with
            | error e => rw [hstep] at h; exact Except.noConfusion h
            | ok ps3 =>
              rw [hstep] at h
              have h2 : eloLoop seasons rest g.season ps3 = .ok (rlist, cur2) := h
              rw [ih g.season ps3 rlist cur2 h2]
              rw [eloGameStep_ids g (eloDecay ps) ps3 hstep]
              exact eloDecay_ids ps
          · rw [eloLoop_cons_stay seasons g rest c ps hcs hc] at h
            cases hstep : eloGameStep g ps with
            | error e => rw [hstep] at h; exact Except.noConfusion h
            | ok ps3 =>
              rw [hstep] at h
              have h2 : eloLoop seasons rest (some c) ps3 = .ok (rlist, cur2) := h
              rw [ih (some c) ps3 rlist cur2 h2]
              exact eloGameStep_ids g ps ps3 hstep

/-- Helper: the Elo pass returns one row per requested player id, in
order. -/
theorem eloCore_ids (today : ℤ) (games : List Game) (seasons : List Season)
    (ids : List PlayerId) (es : List CorePlayer)
    (h : eloCore today games seasons ids = .ok es) :
    es.map (fun c => c.id) = ids := by
  unfold eloCore at h
  cases hl : eloLoop seasons (sortK (fun g => g.date) (games.filter (fun g => g.state == 3)))
      none (ids.map (fun i => (⟨i, 1500, 0⟩ : CorePlayer))) with
  | error e =>
    rw [hl] at h
    exact Except.noConfusion h
  | ok pr =>
    obtain ⟨ps, cursor⟩ := pr
    rw [hl] at h
    have hbase : ps.map (fun c => c.id) = ids := by
      rw [eloLoop_ids seasons _ none (ids.map (fun i => (⟨i, 1500, 0⟩ : CorePlayer)))
          ps cursor hl]
      rw [List.map_map]
      exact List.map_id ids
    have h2 : (if cursor ≠ (currentSeason today seasons).map (fun s => s.id)
        then (Except.ok (eloDecay ps) : Except (String × List CorePlayer) (List CorePlayer))
        else .ok ps) = .ok es := h
    by_cases hcond : cursor ≠ (currentSeason today seasons).map (fun s => s.id)
    · rw [if_pos hcond] at h2
      injection h2 with h3
      rw [← h3, eloDecay_ids]
      exact hbase
    · rw [if_neg hcond] at h2
      injection h2 with h3
      rw [← h3]
      exact hbase

/-- Helper: a successful rank pass returns one rank per input player. -/
theorem ranksCore_ok_length (today : ℤ) (games : List Game) (seasons : List Season)
    (catalog : List Rank) (zs : List ℝ → List ℝ) (inputs : List (PlayerId × ℝ))
    (rs : List (Option Nat))
    (h : ranksCore today games seasons catalog zs inputs = .ok rs) :
    rs.length = inputs.length := by
  unfold ranksCore at h
  by_cases h2 : catalog.length = 2
  · rw [if_pos h2] at h
    exact Except.noConfusion h
  · rw [if_neg h2] at h
    cases hcs : currentSeason today seasons with
    | none => simp only [hcs] at h; exact Except.noConfusion h
    | some season =>
      simp only [hcs] at h
      cases hr : season.rules with
      | none => simp only [hr] at h; exact Except.noConfusion h
      | some rules =>
        simp only [hr] at h
        cases hq : qualLoop rules.rank_statistic games season.id rules.rank_min_value
            inputs [] with
        | error e => simp only [hq] at h; exact Except.noConfusion h
        | ok ranked =>
          simp only [hq] at h
          by_cases he : ranked.isEmpty = true
          · rw [if_pos he] at h
            injection h with h3
            rw [← h3]
            simp
          · rw [if_neg he] at h
            injection h with h3
            rw [← h3]
            simp

/-- Helper: evaluation of the `GameTeamRelation` upsert replay — the last
recorded upsert for a key wins, otherwise the stored entry remains. -/
theorem applyUps_eval (L : List (Nat × Nat × Nat)) :
    ∀ (gt : Nat → Option (Nat × Nat)) (k : Nat),
      applyUps L gt k =
        match selUps L k with
        | some v => some v
        | none => gt k := by
  induction L with
  | nil => intro gt k; rfl
  | cons u L ih =>
    intro gt k
    rw [show applyUps (u :: L) gt
        = applyUps L (fun k2 => if k2 = u.1 then some (u.2.1, u.2.2) else gt k2) from rfl]
    rw [ih]
    simp only [selUps]
    cases selUps L k with
    | some v => rfl
    | none => by_cases hk : k = u.1 <;> simp [hk]

/-- Helper: replaying the same upsert list a second time changes no
stored relation. -/
theorem applyUps_idem (L : List (Nat × Nat × Nat)) (gt : Nat → Option (Nat × Nat)) :
    applyUps L (applyUps L gt) = applyUps L gt := by
  funext k
  rw [applyUps_eval, applyUps_eval]
  cases selUps L k with
  | some v => rfl
  | none => rfl

/-- Helper: `find_or_create` returns the team table unchanged or with one
virtual team appended. -/
theorem find_or_create_append (teams : List Team) (season : Option SeasonId)
    (members : List (PlayerId × String)) :
    ∃ V, (find_or_create teams season members).2 = teams ++ V ∧
      ∀ t ∈ V, t.virtual = true := by
  cases h1 : ((teams.enum.filter (fun it =>
      teamMatches season (members.map (fun m => m.1)) it.2)).find?
        (fun it => !it.2.virtual)) with
  | some it =>
    refine ⟨[], ?_, fun t ht => absurd ht (List.not_mem_nil t)⟩
    simp only [find_or_create, h1]
    simp
  | none =>
    cases h2 : teams.enum.filter (fun it =>
        teamMatches season (members.map (fun m => m.1)) it.2) with
    | cons it rest =>
      refine ⟨[], ?_, fun t ht => absurd ht (List.not_mem_nil t)⟩
      simp only [find_or_create, h1]
      rw [h2]
      simp
    | nil =>
      refine ⟨[{ name := String.join (members.map (fun m => m.2)),
                 members := (members.map (fun m => m.1)).map
                   (fun pid => ({ player := pid, backup := false } : TeamPlayerRelation)),
                 season := season, elo := 1500, season_best := 0, virtual := true }],
              ?_, ?_⟩
      · simp only [find_or_create, h1]
        rw [h2]
      · intro t ht
        rw [List.mem_singleton] at ht
        subst ht
        rfl

/-- Helper: writing rating-column updates into two fetched rows leaves
the reset image of the team table unchanged. -/
theorem set2_reset (X : List Team) (i j : Nat) (t1 t2 : Team)
    (hg1 : X.get? i = some t1) (hg2 : X.get? j = some t2) (e1 b1 e2 b2 : ℝ) :
    ((X.set i { t1 with elo := e1, season_best := b1 }).set j
        { t2 with elo := e2, season_best := b2 }).map resetTeam
      = X.map resetTeam := by
  rw [List.map_set, List.map_set]
  rw [show resetTeam { t1 with elo := e1, season_best := b1 } = resetTeam t1 from rfl]
  rw [show resetTeam { t2 with elo := e2, season_best := b2 } = resetTeam t2 from rfl]
  rw [set_get_self (X.map resetTeam) i (resetTeam t1)
      (by rw [List.get?_map, hg1]; rfl)]
  exact set_get_self (X.map resetTeam) j (resetTeam t2)
      (by rw [List.get?_map, hg2]; rfl)

/-- Helper: one `update_team_score` loop body preserves the reset image
of the team table up to appended virtual teams. -/
theorem teamGameStepWith_reset (season : Option SeasonId) (gi : Nat) (g : Game)
    (m1 m2 : List (PlayerId × String)) (teams : List Team) :
    ∃ V, (teamGameStepWith season gi g m1 m2 teams).1.map resetTeam
        = teams.map resetTeam ++ V ∧ ∀ t ∈ V, t.virtual = true := by
  obtain ⟨V1, hV1, hV1v⟩ := find_or_create_append teams season m1
  obtain ⟨V2, hV2, hV2v⟩ :=
    find_or_create_append (find_or_create teams season m1).2 season m2
  have hR : (find_or_create (find_or_create teams season m1).2 season m2).2.map resetTeam
      = teams.map resetTeam ++ (V1.map resetTeam ++ V2.map resetTeam) := by
    rw [hV2, hV1]
    simp [List.map_append, List.append_assoc]
  have hvv : ∀ t ∈ V1.map resetTeam ++ V2.map resetTeam, t.virtual = true := by
    intro t ht
    rcases List.mem_append.mp ht with h3 | h3 <;>
      obtain ⟨u, hu, rfl⟩ := List.mem_map.mp h3
    · exact hV1v u hu
    · exact hV2v u hu
  refine ⟨V1.map resetTeam ++ V2.map resetTeam, ?_, hvv⟩
  cases hg1 : (find_or_create (find_or_create teams season m1).2 season m2).2.get?
      (find_or_create teams season m1).1 with
  | none =>
    simp only [teamGameStepWith, hg1]
    exact hR
  | some t1 =>
    cases hg2 : (find_or_create (find_or_create teams season m1).2 season m2).2.get?
        (find_or_create (find_or_create teams season m1).2 season m2).1 with
    | none =>
      simp only [teamGameStepWith, hg1, hg2]
      exact hR
    | some t2 =>
      simp only [teamGameStepWith, hg1, hg2]
      rw [set2_reset _ _ _ _ _ hg1 hg2]
      exact hR

/-- Helper: `teamGameStep` is the loop body applied to the two member
lists it forms. -/
theorem teamGameStep_eq_with (playersT : List (PlayerId × String))
    (season : Option SeasonId) (gi : Nat) (g : Game) (teams : List Team) :
    teamGameStep playersT season gi g teams
      = teamGameStepWith season gi g
          ((sidePlayers g 1).map (fun pid =>
            (pid, ((playersT.find? (fun a => a.1 == pid)).map (fun a => a.2)).getD "")))
          ((sidePlayers g 2).map (fun pid =>
            (pid, ((playersT.find? (fun a => a.1 == pid)).map (fun a => a.2)).getD "")))
          teams := rfl

/-- Helper: one `teamGameStep` preserves the reset image of the team
table up to appended virtual teams. -/
theorem teamGameStep_reset (playersT : List (PlayerId × String))
    (season : Option SeasonId) (gi : Nat) (g : Game) (teams : List Team) :
    ∃ V, (teamGameStep playersT season gi g teams).1.map resetTeam
        = teams.map resetTeam ++ V ∧ ∀ t ∈ V, t.virtual = true := by
  rw [teamGameStep_eq_with]
  exact teamGameStepWith_reset season gi g _ _ teams

/-- Helper: the `update_team_score` game loop preserves the reset image
of the team table up to appended virtual teams. -/
theorem teamLoop_reset (playersT : List (PlayerId × String)) (season : Option SeasonId)
    (seasons : List Season) :
    ∀ (gs : List (Nat × Game)) (teams : List Team) (ups : List (Nat × Nat × Nat))
      (ts : List Team) (ups2 : List (Nat × Nat × Nat)),
      teamLoop playersT season seasons gs teams ups = .ok (ts, ups2) →
      ∃ V, ts.map resetTeam = teams.map resetTeam ++ V ∧ ∀ t ∈ V, t.virtual = true := by
  intro gs
  induction gs with
  | nil =>
    intro teams ups ts ups2 h
    refine ⟨[], ?_, fun t ht => absurd ht (List.not_mem_nil t)⟩
    have h2 : (teams, ups) = (ts, ups2) := Except.ok.inj h
    injection h2 with h3 h4
    rw [← h3, List.append_nil]
  | cons gg rest ih =>
    intro teams ups ts ups2 h
    obtain ⟨gi, g⟩ := gg
    simp only [teamLoop] at h
    cases hcs : canScore seasons g with
    | error e =>
      rw [hcs] at h
      exact Except.noConfusion h
    | ok b =>
      rw [hcs] at h
      cases b with
      | false => exact ih teams ups ts ups2 h
      | true =>
        have h2 : teamLoop playersT season seasons rest
            (teamGameStep playersT season gi g teams).1
            (ups ++ [(teamGameStep playersT season gi g teams).2]) = .ok (ts, ups2) := h
        obtain ⟨V1, hV1, hV1v⟩ := teamGameStep_reset playersT season gi g teams
        obtain ⟨V2, hV2, hV2v⟩ := ih _ _ ts ups2 h2
        refine ⟨V1 ++ V2, ?_, ?_⟩
        · rw [hV2, hV1, List.append_assoc]
        · intro t ht
          rcases List.mem_append.mp ht with h3 | h3
          · exact hV1v t h3
          · exact hV2v t h3

/-- Helper: on success, the non-virtual teams of the resulting team
table have the same reset image as those of the stored table. -/
theorem teamCore_reset (today : ℤ) (games : List Game) (seasons : List Season)
    (playersT : List (PlayerId × String)) (base : List Team)
    (ts : List Team) (ups : List (Nat × Nat × Nat))
    (h : teamCore today games seasons playersT base = .ok (ts, ups)) :
    (ts.filter (fun t => !t.virtual)).map resetTeam
      = (base.filter (fun t => !t.virtual)).map resetTeam := by
  unfold teamCore at h
  obtain ⟨V, hV, hVv⟩ := teamLoop_reset playersT _ seasons _ _ _ ts ups h
  rw [map_idem resetTeam (fun t => rfl) (base.filter (fun t => !t.virtual))] at hV
  have hcomm : (ts.filter (fun t => !t.virtual)).map resetTeam
      = (ts.map resetTeam).filter (fun t => !t.virtual) := by
    rw [List.filter_map]
    congr 1
  rw [hcomm, hV, List.filter_append]
  have h1 : ((base.filter (fun t => !t.virtual)).map resetTeam).filter
      (fun t => !t.virtual) = (base.filter (fun t => !t.virtual)).map resetTeam := by
    apply List.filter_eq_self.mpr
    intro t ht
    obtain ⟨u, hu, rfl⟩ := List.mem_map.mp ht
    exact (List.mem_filter.mp hu).2
  have h2 : V.filter (fun t => !t.virtual) = [] := by
    apply List.filter_eq_nil_iff.mpr
    intro t ht
    simp [hVv t ht]
  rw [h1, h2, List.append_nil]

/-- Helper: replaying `update_team_score`'s core from its own output team
table reproduces that output — the loop only reads the reset image of the
non-virtual teams. -/
theorem teamCore_restart (today : ℤ) (games : List Game) (seasons : List Season)
    (playersT : List (PlayerId × String)) (base : List Team)
    (ts : List Team) (ups : List (Nat × Nat × Nat))
    (h : teamCore today games seasons playersT base = .ok (ts, ups)) :
    teamCore today games seasons playersT ts = .ok (ts, ups) := by
  have hb := teamCore_reset today games seasons playersT base ts ups h
  unfold teamCore at h ⊢
  rw [hb]
  exact h

/-- Helper: inversion of a successful Elo pass. -/
theorem update_elo_ok_inv (db d : DB) (h : update_elo db = .ok d) :
    ∃ es, eloCore db.today db.games db.seasons (db.players.map (fun p => p.id)) = .ok es ∧
      d = { db with players := writeElo db.players es } := by
  unfold update_elo at h
  cases he : eloCore db.today db.games db.seasons (db.players.map (fun p => p.id)) with
  | error e =>
    obtain ⟨m, cs⟩ := e
    rw [he] at h
    exact Except.noConfusion h
  | ok es =>
    rw [he] at h
    exact ⟨es, rfl, (Except.ok.inj h).symm⟩

/-- Helper: inversion of a successful score pass. -/
theorem update_score_ok_inv (db d : DB) (h : update_score db = .ok d) :
    ∃ acc, scoreCore db.today db.games db.seasons (db.players.map toCore) = .ok acc ∧
      d = { db with players := writeScore db.players acc } := by
  unfold update_score at h
  cases hs : scoreCore db.today db.games db.seasons (db.players.map toCore) with
  | error e =>
    obtain ⟨m, o⟩ := e
    cases o with
    | none => rw [hs] at h; exact Except.noConfusion h
    | some acc => rw [hs] at h; exact Except.noConfusion h
  | ok acc =>
    rw [hs] at h
    exact ⟨acc, rfl, (Except.ok.inj h).symm⟩

/-- Helper: inversion of a successful rank pass. -/
theorem calculate_ranks_ok_inv (zs : List ℝ → List ℝ) (db d : DB)
    (h : calculate_ranks zs db = .ok d) :
    ∃ rs, ranksCore db.today db.games db.seasons db.ranks zs
        (db.players.map (fun p => (p.id, p.score))) = .ok rs ∧
      d = { db with players := writeRanks db.players rs } := by
  unfold calculate_ranks at h
  cases hr : ranksCore db.today db.games db.seasons db.ranks zs
      (db.players.map (fun p => (p.id, p.score))) with
  | error e =>
    obtain ⟨m, o⟩ := e
    cases o with
    | none => rw [hr] at h; exact Except.noConfusion h
    | some rs => rw [hr] at h; exact Except.noConfusion h
  | ok rs =>
    rw [hr] at h
    exact ⟨rs, rfl, (Except.ok.inj h).symm⟩

/-- Helper: inversion of a successful team pass. -/
theorem update_team_score_ok_inv (db d : DB) (h : update_team_score db = .ok d) :
    ∃ ts ups, teamCore db.today db.games db.seasons
        (db.players.map (fun p => (p.id, p.name))) db.teams = .ok (ts, ups) ∧
      d = { db with teams := ts, gameTeams := applyUps ups db.gameTeams } := by
  unfold update_team_score at h
  cases ht : teamCore db.today db.games db.seasons
      (db.players.map (fun p => (p.id, p.name))) db.teams with
  | error e =>
    obtain ⟨m, ts, ups⟩ := e
    rw [ht] at h
    exact Except.noConfusion h
  | ok pr =>
    obtain ⟨ts, ups⟩ := pr
    rw [ht] at h
    exact ⟨ts, ups, rfl, (Except.ok.inj h).symm⟩

/-- Helper: a stored state whose player table absorbs the Elo write-back
is a fixed point of the Elo pass. -/
theorem update_elo_fix (d : DB) (es : List CorePlayer)
    (h : eloCore d.today d.games d.seasons (d.players.map (fun p => p.id)) = .ok es)
    (hw : writeElo d.players es = d.players) :
    update_elo d = .ok d := by
  unfold update_elo
  rw [h]
  show Except.ok { d with players := writeElo d.players es } = Except.ok d
  rw [hw]

/-- Helper: a stored state whose player table absorbs the score
write-back is a fixed point of the score pass. -/
theorem update_score_fix (d : DB) (acc : List (PlayerId × ℝ))
    (h : scoreCore d.today d.games d.seasons (d.players.map toCore) = .ok acc)
    (hw : writeScore d.players acc = d.players) :
    update_score d = .ok d := by
  unfold update_score
  rw [h]
  show Except.ok { d with players := writeScore d.players acc } = Except.ok d
  rw [hw]

/-- Helper: a stored state whose player table absorbs the rank write-back
is a fixed point of the rank pass. -/
theorem calculate_ranks_fix (zs : List ℝ → List ℝ) (d : DB) (rs : List (Option Nat))
    (h : ranksCore d.today d.games d.seasons d.ranks zs
      (d.players.map (fun p => (p.id, p.score))) = .ok rs)
    (hw : writeRanks d.players rs = d.players) :
    calculate_ranks zs d = .ok d := by
  unfold calculate_ranks
  rw [h]
  show Except.ok { d with players := writeRanks d.players rs } = Except.ok d
  rw [hw]

/-- Helper: a stored state whose team table and game-team relations
absorb the team pass results is a fixed point of the team pass. -/
theorem update_team_score_fix (d : DB) (ts : List Team) (ups : List (Nat × Nat × Nat))
    (h : teamCore d.today d.games d.seasons
      (d.players.map (fun p => (p.id, p.name))) d.teams = .ok (ts, ups))
    (hts : ts = d.teams) (hups : applyUps ups d.gameTeams = d.gameTeams) :
    update_team_score d = .ok d := by
  unfold update_team_score
  rw [h]
  show Except.ok { d with teams := ts, gameTeams := applyUps ups d.gameTeams }
      = Except.ok d
  rw [hts, hups]

/-- Helper: a common fixed point of all four passes is a fixed point of
the whole pipeline. -/
theorem recompute_fix (zs : List ℝ → List ℝ) (d : DB)
    (h1 : update_elo d = .ok d) (h2 : update_score d = .ok d)
    (h3 : calculate_ranks zs d = .ok d) (h4 : update_team_score d = .ok d) :
    recompute zs d = .ok d := by
  unfold recompute
  simp only [h1, except_bind_ok, h2, h3, h4]

/-- C2: the recompute pipeline is deterministic (it is a function of the
stored state) and idempotent: any state produced by a successful run of
`update_statistics` is a fixed point, so re-running the pipeline on an
unchanged match history succeeds and reproduces exactly the same
ratings, season bests, scores, ranks, team ratings and game-team
relations. -/
theorem recompute_idempotent (zs : List ℝ → List ℝ) (db d1 : DB)
    (h : recompute zs db = .ok d1) : recompute zs d1 = .ok d1 := by
  unfold recompute at h
  obtain ⟨a, ha, h⟩ := except_bind_inv h
  obtain ⟨b, hb, h⟩ := except_bind_inv h
  obtain ⟨c, hc, hd⟩ := except_bind_inv h
  obtain ⟨es, hes, rfl⟩ := update_elo_ok_inv db a ha
  obtain ⟨acc, hacc, rfl⟩ := update_score_ok_inv _ b hb
  obtain ⟨rs, hrs, rfl⟩ := calculate_ranks_ok_inv zs _ c hc
  obtain ⟨ts, ups, hts, rfl⟩ := update_team_score_ok_inv _ d1 hd
  dsimp only at hacc hrs hts ⊢
  have hids : es.map (fun c => c.id) = db.players.map (fun p => p.id) :=
    eloCore_ids db.today db.games db.seasons (db.players.map (fun p => p.id)) es hes
  have hlen_es : es.length = db.players.length := by
    have h0 := congrArg List.length hids
    simpa using h0
  have hrsS : rs.length = (writeScore (writeElo db.players es) acc).length := by
    have h0 := ranksCore_ok_length db.today db.games db.seasons db.ranks zs
      ((writeScore (writeElo db.players es) acc).map (fun p => (p.id, p.score))) rs hrs
    simpa using h0
  have hid3 : (writeRanks (writeScore (writeElo db.players es) acc) rs).map (fun p => p.id)
      = db.players.map (fun p => p.id) := by
    rw [writeRanks_map_id _ _ hrsS, writeScore_map_id, writeElo_map_id _ _ hlen_es]
  have htoCore3 : (writeRanks (writeScore (writeElo db.players es) acc) rs).map toCore
      = (writeElo db.players es).map toCore := by
    rw [writeRanks_map_toCore _ _ hrsS, writeScore_map_toCore]
  have hIS3 : (writeRanks (writeScore (writeElo db.players es) acc) rs).map
        (fun p => (p.id, p.score))
      = (writeScore (writeElo db.players es) acc).map (fun p => (p.id, p.score)) :=
    writeRanks_map_idScore _ _ hrsS
  have hfix_elo : writeElo (writeRanks (writeScore (writeElo db.players es) acc) rs) es
      = writeRanks (writeScore (writeElo db.players es) acc) rs := by
    rw [writeElo_writeRanks_comm, writeElo_writeScore_comm, writeElo_twice]
  have hfix_score :
      writeScore (writeRanks (writeScore (writeElo db.players es) acc) rs) acc
      = writeRanks (writeScore (writeElo db.players es) acc) rs := by
    rw [writeScore_writeRanks_comm, writeScore_twice]
  have hfix_ranks : writeRanks (writeRanks (writeScore (writeElo db.players es) acc) rs) rs
      = writeRanks (writeScore (writeElo db.players es) acc) rs :=
    writeRanks_twice _ _
  refine recompute_fix zs _ (update_elo_fix _ es ?_ ?_) (update_score_fix _ acc ?_ ?_)
      (calculate_ranks_fix zs _ rs ?_ ?_) (update_team_score_fix _ ts ups ?_ ?_ ?_)
  · dsimp only
    rw [hid3]
    exact hes
  · dsimp only
    exact hfix_elo
  · dsimp only
    rw [htoCore3]
    exact hacc
  · dsimp only
    exact hfix_score
  · dsimp only
    rw [hIS3]
    exact hrs
  · dsimp only
    exact hfix_ranks
  · dsimp only
    exact teamCore_restart db.today db.games db.seasons _ _ ts ups hts
  · dsimp only
  · dsimp only
    exact applyUps_idem ups db.gameTeams

/-- C2 witness: on the empty store with one configured season the
pipeline succeeds with its input as output, and the theorem applies to
that run. -/
theorem recompute_idempotent_witness : recompute zs0 db0 = .ok db0 :=
  recompute_idempotent zs0 db0 db0 (by rfl)

end Frisbeer
